import Mathlib

/-!
Shallow embedding of the medley two-deck playback engine
(src/unnamed/part_004, the current Medley.cpp): the transition state
machine of Medley::deckPosition, the deck-queue bookkeeping of
Medley::deckLoaded and Medley::deckUnloaded, track loading via
Medley::loadNextTrack, the fading configuration
(Medley::setFadingCurve / Medley::updateFadingFactor) and the mixer
pause toggle (Medley::Mixer::togglePause).

Doubles are modelled as rationals.  Where the C++ code can divide by
zero the result is represented by an explicit IEEE-style value type
FVal (finite value, two infinities, NaN) so that jlimit and the
comparisons behave exactly as doubles do.  std::pow with a real
exponent is kept uninterpreted: every statement that involves a deck
volume is parametrised by an arbitrary function rpow standing for pow.

The Deck class and Medley.h are not among the sources; the per-deck
state, the event preconditions and the transition anchors are modelled
from the specification and marked as such.
-/

namespace Medley

/-- An IEEE-double-like value: a finite rational or one of the
exceptional values produced by dividing by zero. -/
inductive FVal where
  | num (q : ℚ)
  | posInf
  | negInf
  | nan
deriving DecidableEq

/-- Division as C++ doubles perform it: dividing a nonzero value by
zero yields an infinity of the numerator's sign, and 0/0 yields NaN. -/
def fdiv (a b : ℚ) : FVal :=
  if b = 0 then (if 0 < a then .posInf else if a < 0 then .negInf else .nan)
  else .num (a / b)

/-- juce jlimit on rationals: the lower bound if the value is below it,
the upper bound if the value is above it, the value otherwise. -/
def jlimit (lo hi v : ℚ) : ℚ :=
  if v < lo then lo else if hi < v then hi else v

/-- juce jlimit lifted to FVal: both comparisons are false on NaN, so
NaN passes through unchanged. -/
def FVal.jlimitF (lo hi : ℚ) : FVal → FVal
  | .num q => .num (jlimit lo hi q)
  | .posInf => .num hi
  | .negInf => .num lo
  | .nan => .nan

/-- 1 − v on FVal, used by the fade-out curve. -/
def FVal.oneMinus : FVal → FVal
  | .num q => .num (1 - q)
  | .posInf => .negInf
  | .negInf => .posInf
  | .nan => .nan

/-- v >= 1.0 as C++ evaluates it: false on NaN. -/
def FVal.ge1 : FVal → Bool
  | .num q => decide (1 ≤ q)
  | .posInf => true
  | .negInf => false
  | .nan => false

/-- std::pow with the engine's fading factor as exponent, uninterpreted
on finite values through the parameter rpow; pow(NaN, f) is NaN.  The
infinite cases never arise at the call sites because every argument is
the output of jlimitF or oneMinus of such an output. -/
def FVal.powF (rpow : ℚ → ℚ → ℚ) (f : ℚ) : FVal → FVal
  | .num q => .num (rpow q f)
  | v => v

/-- The two decks constructed by the engine (deck1 "Deck A" and deck2
"Deck B"). -/
inductive DeckId where
  | deck1
  | deck2
deriving DecidableEq

/-- Medley::getAnotherDeck restricted to a non-null argument:
(from == deck1) ? deck2 : deck1. -/
def DeckId.other : DeckId → DeckId
  | .deck1 => .deck2
  | .deck2 => .deck1

@[simp] theorem DeckId.other_other (d : DeckId) : d.other.other = d := by
  cases d <;> rfl

@[simp] theorem DeckId.other_ne (d : DeckId) : d.other ≠ d := by
  cases d <;> simp [DeckId.other]

/-- Modelled from the spec: the transition-state enumeration
{idle, cueing, cued, transit} of §3 (Medley.h is not among the
sources); the declaration order matches the source comparison
transitionState < TransitionState::Cued. -/
inductive TransitionState where
  | Idle
  | Cueing
  | Cued
  | Transit
deriving DecidableEq

/-- The underlying integer of a TransitionState value, giving the
order used by the source comparison. -/
def TransitionState.toNat : TransitionState → Nat
  | .Idle => 0
  | .Cueing => 1
  | .Cued => 2
  | .Transit => 3

/-- Modelled from the spec: a track handed out by the queue, reduced to
whether Deck::loadTrack accepts it (§4.4, §7: undecodable tracks are
skipped and the next one is tried). -/
structure Track where
  loadable : Bool
deriving DecidableEq

/-- Modelled from the spec: the scan results and transition anchors
published to a deck when its track finishes loading (§3, §4.2). -/
structure TrackInfo where
  firstAudiblePosition : ℚ
  leadingDuration : ℚ
  transitionPreCuePosition : ℚ
  transitionCuePosition : ℚ
  transitionStartPosition : ℚ
  transitionEndPosition : ℚ
deriving DecidableEq

/-- Modelled from the spec: the per-deck state observed by the engine
(Deck.cpp is not among the sources): the load and play flags, the
is-main flag, volume, read position and the transition anchors
(§3, §4.4). -/
structure DeckState where
  trackLoaded : Bool
  isTrackLoading : Bool
  playing : Bool
  pendingPlay : Bool
  main : Bool
  volume : FVal
  position : ℚ
  firstAudiblePosition : ℚ
  leadingDuration : ℚ
  transitionPreCuePosition : ℚ
  transitionCuePosition : ℚ
  transitionStartPosition : ℚ
  transitionEndPosition : ℚ
deriving DecidableEq

/-- The engine state of Medley.cpp: the two decks, the deckQueue of
decks holding a loaded track, the transition state machine, the forced
fade-out counter, the keepPlaying flag, the external track queue and
the fading / transition configuration. -/
structure EngineState where
  deck1 : DeckState
  deck2 : DeckState
  deckQueue : List DeckId
  transitionState : TransitionState
  transitingDeck : Option DeckId
  forceFadingOut : Int
  keepPlaying : Bool
  queue : List Track
  fadingCurve : ℚ
  fadingFactor : ℚ
  maxLeadingDuration : ℚ
  maxTransitionTime : ℚ
deriving DecidableEq

/-- The deck state selected by a DeckId. -/
def EngineState.deck (s : EngineState) : DeckId → DeckState
  | .deck1 => s.deck1
  | .deck2 => s.deck2

/-- Replace one deck's state through a function. -/
def EngineState.updateDeck (s : EngineState) (d : DeckId) (f : DeckState → DeckState) :
    EngineState :=
  match d with
  | .deck1 => { s with deck1 := f s.deck1 }
  | .deck2 => { s with deck2 := f s.deck2 }

@[simp] theorem deck_updateDeck_same (s : EngineState) (d : DeckId) (f : DeckState → DeckState) :
    (s.updateDeck d f).deck d = f (s.deck d) := by
  cases d <;> rfl

theorem deck_updateDeck_ne (s : EngineState) {d e : DeckId} (f : DeckState → DeckState)
    (h : e ≠ d) : (s.updateDeck d f).deck e = s.deck e := by
  cases d <;> cases e <;> first | rfl | exact absurd rfl h

@[simp] theorem deck_updateDeck_other (s : EngineState) (d : DeckId) (f : DeckState → DeckState) :
    (s.updateDeck d f).deck d.other = s.deck d.other := by
  cases d <;> rfl

@[simp] theorem updateDeck_deckQueue (s : EngineState) (d : DeckId) (f : DeckState → DeckState) :
    (s.updateDeck d f).deckQueue = s.deckQueue := by
  cases d <;> rfl

@[simp] theorem updateDeck_transitionState (s : EngineState) (d : DeckId)
    (f : DeckState → DeckState) :
    (s.updateDeck d f).transitionState = s.transitionState := by
  cases d <;> rfl

@[simp] theorem updateDeck_transitingDeck (s : EngineState) (d : DeckId)
    (f : DeckState → DeckState) :
    (s.updateDeck d f).transitingDeck = s.transitingDeck := by
  cases d <;> rfl

@[simp] theorem updateDeck_forceFadingOut (s : EngineState) (d : DeckId)
    (f : DeckState → DeckState) :
    (s.updateDeck d f).forceFadingOut = s.forceFadingOut := by
  cases d <;> rfl

@[simp] theorem updateDeck_keepPlaying (s : EngineState) (d : DeckId)
    (f : DeckState → DeckState) :
    (s.updateDeck d f).keepPlaying = s.keepPlaying := by
  cases d <;> rfl

@[simp] theorem updateDeck_queue (s : EngineState) (d : DeckId) (f : DeckState → DeckState) :
    (s.updateDeck d f).queue = s.queue := by
  cases d <;> rfl

@[simp] theorem updateDeck_fadingCurve (s : EngineState) (d : DeckId) (f : DeckState → DeckState) :
    (s.updateDeck d f).fadingCurve = s.fadingCurve := by
  cases d <;> rfl

@[simp] theorem updateDeck_fadingFactor (s : EngineState) (d : DeckId)
    (f : DeckState → DeckState) :
    (s.updateDeck d f).fadingFactor = s.fadingFactor := by
  cases d <;> rfl

@[simp] theorem updateDeck_maxLeadingDuration (s : EngineState) (d : DeckId)
    (f : DeckState → DeckState) :
    (s.updateDeck d f).maxLeadingDuration = s.maxLeadingDuration := by
  cases d <;> rfl

@[simp] theorem updateDeck_maxTransitionTime (s : EngineState) (d : DeckId)
    (f : DeckState → DeckState) :
    (s.updateDeck d f).maxTransitionTime = s.maxTransitionTime := by
  cases d <;> rfl

/-- Medley::getAvailableDeck:
!deck1->isTrackLoaded() ? deck1 : (!deck2->isTrackLoaded() ? deck2 : nullptr). -/
def getAvailableDeck (s : EngineState) : Option DeckId :=
  if !s.deck1.trackLoaded then some .deck1
  else if !s.deck2.trackLoaded then some .deck2
  else none

/-- Medley::getAnotherDeck: the available deck for a null argument,
otherwise the opposite deck. -/
def getAnotherDeck (s : EngineState) : Option DeckId → Option DeckId
  | none => getAvailableDeck s
  | some d => some d.other

/-- Deck::markAsMain, as invoked by the engine. -/
def markAsMain (s : EngineState) (d : DeckId) (b : Bool) : EngineState :=
  s.updateDeck d (fun ds => { ds with main := b })

/-- deckQueue.front()->markAsMain(true); every call site in the source
guards for a nonempty queue, the none branch is unreachable there. -/
def markFrontMain (s : EngineState) : EngineState :=
  match s.deckQueue.head? with
  | some d => markAsMain s d true
  | none => s

/-- Modelled from the spec: Deck::loadTrack (Deck.cpp is not among the
sources).  A load request is accepted only on an empty, non-busy deck
(§3 lifecycle empty → loading → loaded → playing → empty; §4.4 load
fails fast when already loading) and only for a decodable track
(§4.1, §7); an accepted request puts the deck into the loading state
and remembers the autoplay flag, the loaded event follows later from
the loading thread. -/
def loadTrack (ds : DeckState) (t : Track) (play : Bool) : Bool × DeckState :=
  if ds.trackLoaded || ds.isTrackLoading || !t.loadable then (false, ds)
  else (true, { ds with isTrackLoading := true, pendingPlay := play })

/-- The queue-draining loop of Medley::loadNextTrack: while the queue
is nonempty, fetchNextTrack and stop as soon as one track loads;
returns the success flag, the deck state and the remaining queue. -/
def fetchLoop (play : Bool) (ds : DeckState) : List Track → Bool × DeckState × List Track
  | [] => (false, ds, [])
  | t :: rest =>
    let r := loadTrack ds t play
    if r.1 then (true, r.2, rest) else fetchLoop play ds rest

/-- Modelled from the spec: the deck-side effect of Deck::unloadTrack —
the load and play flags are cleared and the anchors reset (§4.4);
volume is left to the engine's explicit setVolume calls and the
is-main flag to Medley::deckUnloaded. -/
def unloadDeck (ds : DeckState) : DeckState :=
  { ds with trackLoaded := false, isTrackLoading := false, playing := false,
            pendingPlay := false,
            firstAudiblePosition := 0, leadingDuration := 0,
            transitionPreCuePosition := 0, transitionCuePosition := 0,
            transitionStartPosition := 0, transitionEndPosition := 0 }

/-- Medley::loadNextTrack: pick the other deck (or, with no current
deck, an available one); when it is busy loading, force-unload it — the
cancelled load's unloaded event is deferred to the loader thread
(spec §5) — then pull tracks from the queue until one loads. -/
def loadNextTrack (s : EngineState) (currentDeck : Option DeckId) (play : Bool) :
    Bool × EngineState :=
  match getAnotherDeck s currentDeck with
  | none => (false, s)
  | some d =>
    let s := if (s.deck d).isTrackLoading then s.updateDeck d unloadDeck else s
    let r := fetchLoop play (s.deck d) s.queue
    (r.1, { s.updateDeck d (fun _ => r.2.1) with queue := r.2.2 })

/-- Medley::isDeckPlaying. -/
def isDeckPlaying (s : EngineState) : Bool :=
  s.deck1.playing || s.deck2.playing

/-- Modelled from the spec: the deck-side completion of a load — the
track becomes loaded, the scan publishes the anchors and autoplay
starts playback (§4.4, §5: the loaded event precedes any position
event). -/
def completeLoad (info : TrackInfo) (ds : DeckState) : DeckState :=
  { ds with trackLoaded := true, isTrackLoading := false,
            playing := ds.pendingPlay, pendingPlay := false,
            firstAudiblePosition := info.firstAudiblePosition,
            leadingDuration := info.leadingDuration,
            transitionPreCuePosition := info.transitionPreCuePosition,
            transitionCuePosition := info.transitionCuePosition,
            transitionStartPosition := info.transitionStartPosition,
            transitionEndPosition := info.transitionEndPosition }

/-- Medley::deckLoaded: push the sender onto deckQueue and mark the
front deck as main. -/
def deckLoaded (s : EngineState) (sender : DeckId) : EngineState :=
  markFrontMain { s with deckQueue := s.deckQueue ++ [sender] }

/-- std::list::remove — drops every occurrence. -/
def listRemove (q : List DeckId) (d : DeckId) : List DeckId :=
  q.filter (fun x => decide (x ≠ d))

/-- The transiting-deck part of Medley::deckUnloaded: when the sender
is the transiting deck, start the other deck if the state was still
Cued and it has a track, return to Idle, clear the transiting deck and
settle one forced fade-out. -/
def deckUnloadedTransit (s : EngineState) (sender : DeckId) : EngineState :=
  if s.transitingDeck = some sender then
    let s :=
      if s.transitionState = .Cued ∧ (s.deck sender.other).trackLoaded then
        s.updateDeck sender.other (fun ds => { ds with playing := true })
      else s
    { s with transitionState := .Idle, transitingDeck := none,
             forceFadingOut :=
               if 0 < s.forceFadingOut then s.forceFadingOut - 1
               else s.forceFadingOut }
  else s

/-- The deck-queue part of Medley::deckUnloaded: clear the sender's
main flag, drop it from deckQueue and promote the new front deck. -/
def deckUnloadedQueue (s : EngineState) (sender : DeckId) : EngineState :=
  let s := markAsMain s sender false
  let s := { s with deckQueue := listRemove s.deckQueue sender }
  if s.deckQueue = [] then s else markFrontMain s

/-- The body of Medley::deckUnloaded up to the recovery path. -/
def deckUnloadedCore (s : EngineState) (sender : DeckId) : EngineState :=
  deckUnloadedQueue (deckUnloadedTransit s sender) sender

/-- The final recovery path of Medley::deckUnloaded (the source marks
it "Just in case"): when the engine should keep playing but no deck
is, reload from the queue — or give keepPlaying up when the queue is
exhausted. -/
def recoverPlayback (s : EngineState) : EngineState :=
  if s.keepPlaying && !isDeckPlaying s then
    let should := !s.queue.isEmpty
    let s := { s with keepPlaying := should }
    if should then (loadNextTrack s none true).2 else s
  else s

/-- Medley::deckUnloaded: the transiting-deck and deck-queue handling
followed by the recovery path. -/
def deckUnloaded (s : EngineState) (sender : DeckId) : EngineState :=
  recoverPlayback (deckUnloadedCore s sender)

/-- The transitionState < Cued block of Medley::deckPosition: leaving
Idle past the pre-cue point dispatches preCueNext; past the cue point
the next track is loaded — with no track and no forced fade-out
pending the handler returns early (first component true) without
transiting, otherwise the state becomes Cued and the sender is
remembered as the transiting deck.  The fireFinishedCallback branch
only dispatches a deck callback and has no engine-state effect. -/
def cuePhase (s : EngineState) (sender : DeckId) (position cuePoint preCuePoint : ℚ) :
    Bool × EngineState :=
  if s.transitionState.toNat < TransitionState.Cued.toNat then
    let s :=
      if s.transitionState = .Idle ∧ position > preCuePoint then
        { s with transitionState := .Cueing }
      else s
    if position > cuePoint then
      let r := loadNextTrack s (some sender) false
      if !r.1 && decide (r.2.forceFadingOut ≤ 0) then (true, r.2)
      else (false, { r.2 with transitionState := .Cued, transitingDeck := some sender })
    else (false, s)
  else (false, s)

/-- The transit block of Medley::deckPosition, for positions past
transitionStart − leading: on Cued with the next deck loaded, enter
Transit — volume to 1, the forced-fade seek past the long leading, and
start; then, while in Transit with a long leading, fade the next deck
in along the clamped progress curve. -/
def transitPhase (rpow : ℚ → ℚ → ℚ) (s : EngineState) (sender : DeckId)
    (position transitionStartPos leadingDuration : ℚ) : EngineState :=
  if position > transitionStartPos - leadingDuration then
    let s :=
      if s.transitionState = .Cued ∧ (s.deck sender.other).trackLoaded then
        let s := { s with transitionState := .Transit }
        let s := s.updateDeck sender.other (fun ds => { ds with volume := .num 1 })
        let s :=
          if 0 < s.forceFadingOut ∧ leadingDuration ≥ s.maxLeadingDuration then
            s.updateDeck sender.other (fun ds =>
              { ds with position :=
                  ds.firstAudiblePosition + leadingDuration - s.maxLeadingDuration })
          else s
        s.updateDeck sender.other (fun ds => { ds with playing := true })
      else s
    if s.transitionState = .Transit ∧ leadingDuration ≥ s.maxLeadingDuration then
      let fadeInProgress := FVal.jlimitF (1/4) 1
        (fdiv (position - (transitionStartPos - leadingDuration)) leadingDuration)
      s.updateDeck sender.other (fun ds =>
        { ds with volume := fadeInProgress.powF rpow s.fadingFactor })
    else s
  else s

/-- The fade-out block of Medley::deckPosition, for positions at or
past transitionStart: while the transition duration is positive the
sender's volume ramps down along the clamped progress curve, and once
the position passed transitionEnd with the progress complete (and the
state not Idle) the sender is stopped. -/
def fadeOutPhase (rpow : ℚ → ℚ → ℚ) (s : EngineState) (sender : DeckId)
    (position transitionStartPos transitionEndPos : ℚ) : EngineState :=
  if position ≥ transitionStartPos then
    let transitionDuration := transitionEndPos - transitionStartPos
    let transitionProgress :=
      FVal.jlimitF 0 1 (fdiv (position - transitionStartPos) transitionDuration)
    let s :=
      if 0 < transitionDuration then
        s.updateDeck sender (fun ds =>
          { ds with volume := transitionProgress.oneMinus.powF rpow s.fadingFactor })
      else s
    if s.transitionState ≠ .Idle ∧ position > transitionEndPos ∧ transitionProgress.ge1 then
      s.updateDeck sender (fun ds => { ds with playing := false })
    else s
  else s

/-- Medley::deckPosition for the two-deck engine (getAnotherDeck never
returns null for a concrete sender): for a main sender the three
transition blocks run in order, with the anchors and the next deck's
leading duration captured on entry exactly as the source does; a
non-main sender that heads deckQueue is re-marked as main. -/
def deckPosition (rpow : ℚ → ℚ → ℚ) (s : EngineState) (sender : DeckId) (position : ℚ) :
    EngineState :=
  if (s.deck sender).main then
    let sd := s.deck sender
    let leadingDuration := (s.deck sender.other).leadingDuration
    let r := cuePhase s sender position sd.transitionCuePosition sd.transitionPreCuePosition
    if r.1 then r.2
    else
      let s2 := transitPhase rpow r.2 sender position sd.transitionStartPosition leadingDuration
      fadeOutPhase rpow s2 sender position sd.transitionStartPosition sd.transitionEndPosition
  else
    match s.deckQueue.head? with
    | some f => if f = sender then markAsMain s sender true else s
    | none => s

/-- Medley::play: when no deck is playing load (and autoplay) the next
track, then keepPlaying. -/
def play (s : EngineState) : EngineState :=
  let s := if !isDeckPlaying s then (loadNextTrack s none true).2 else s
  { s with keepPlaying := true }

/-- Medley::stop: keepPlaying off and both decks stopped; the unloads
that follow surface as separate unloaded events. -/
def stop (s : EngineState) : EngineState :=
  { s with keepPlaying := false,
           deck1 := { s.deck1 with playing := false },
           deck2 := { s.deck2 with playing := false } }

/-- Medley::fadeOutMainDeck: with a main deck present the forced
fade-out counter rises; when already in Transit the main deck is
unloaded on the spot — running Medley::deckUnloaded synchronously —
and the state forced to Idle.  The final Deck::fadeOut only affects
deck-internal gain, and mixer.setPause only the mixer. -/
def fadeOutMainDeck (s : EngineState) : EngineState :=
  match s.deckQueue.head? with
  | none => s
  | some m =>
    let s := { s with forceFadingOut := s.forceFadingOut + 1 }
    if s.transitionState = .Transit then
      let s := deckUnloaded (s.updateDeck m unloadDeck) m
      { s with transitionState := .Idle }
    else s

/-- Medley::updateFadingFactor with outRange = 1000 − 1 and
inRange = 100. -/
def updateFadingFactor (fadingCurve : ℚ) : ℚ :=
  1000 / ((100 - fadingCurve) / 100 * (1000 - 1) + 1)

/-- Medley::setFadingCurve: clamp the curve to [0, 100] and refresh the
derived factor. -/
def setFadingCurve (s : EngineState) (curve : ℚ) : EngineState :=
  let fc := jlimit 0 100 curve
  { s with fadingCurve := fc, fadingFactor := updateFadingFactor fc }

/-- Medley::Mixer, reduced to the pause flags used by togglePause and
getNextAudioBlock. -/
structure Mixer where
  paused : Bool
  stalled : Bool
deriving DecidableEq

/-- Medley::Mixer::togglePause: return paused = !paused — the flag is
flipped and the new value returned. -/
def Mixer.togglePause (m : Mixer) : Bool × Mixer :=
  (!m.paused, { m with paused := !m.paused })

/-- Modelled from the spec: transition_start_sec of §3 (Deck.cpp with
the anchor computation is not among the sources):
transition_start_sec = transition_end_sec −
min(max_transition_time, max(0, end_frame − last_audible_frame) /
sample_rate), with transition_end_sec = end_frame / sample_rate. -/
def transitionStartSec (maxTransitionTime endFrame lastAudibleFrame sampleRate : ℚ) : ℚ :=
  endFrame / sampleRate -
    min maxTransitionTime (max 0 (endFrame - lastAudibleFrame) / sampleRate)

/-- The engine events, as labels of the step relation: the caller
pushing a track, the deck lifecycle callbacks of Medley.cpp, and the
control operations. -/
inductive Label where
  | enqueue (t : Track)
  | loaded (d : DeckId) (info : TrackInfo)
  | unloaded (d : DeckId)
  | position (d : DeckId) (pos : ℚ)
  | finished (d : DeckId)
  | play
  | stop
  | fadeOut

/-- One engine step.  Deck events carry their spec-level preconditions:
loaded completes a pending load (§5: the loaded event precedes any
position event of the track), unloaded follows an actual unload of a
loaded or loading deck (§4.4), position and finished events come from
a playing deck.  Each step applies the deck-side effect and then the
Medley.cpp handler. -/
inductive EStep (rpow : ℚ → ℚ → ℚ) : EngineState → Label → EngineState → Prop where
  | stepEnqueue (s : EngineState) (t : Track) :
      EStep rpow s (.enqueue t) { s with queue := s.queue ++ [t] }
  | stepLoaded (s : EngineState) (d : DeckId) (info : TrackInfo)
      (h : (s.deck d).isTrackLoading = true) :
      EStep rpow s (.loaded d info) (deckLoaded (s.updateDeck d (completeLoad info)) d)
  | stepUnloaded (s : EngineState) (d : DeckId)
      (h : (s.deck d).trackLoaded = true ∨ (s.deck d).isTrackLoading = true) :
      EStep rpow s (.unloaded d) (deckUnloaded (s.updateDeck d unloadDeck) d)
  | stepPosition (s : EngineState) (d : DeckId) (pos : ℚ)
      (h : (s.deck d).playing = true) :
      EStep rpow s (.position d pos) (deckPosition rpow s d pos)
  | stepFinished (s : EngineState) (d : DeckId)
      (h : (s.deck d).playing = true) :
      EStep rpow s (.finished d) (s.updateDeck d (fun ds => { ds with playing := false }))
  | stepPlay (s : EngineState) : EStep rpow s .play (play s)
  | stepStop (s : EngineState) : EStep rpow s .stop (stop s)
  | stepFadeOut (s : EngineState) : EStep rpow s .fadeOut (fadeOutMainDeck s)

/-- A freshly constructed deck: empty, stopped and at unit volume. -/
def initDeck : DeckState :=
  { trackLoaded := false, isTrackLoading := false, playing := false,
    pendingPlay := false, main := false, volume := .num 1, position := 0,
    firstAudiblePosition := 0, leadingDuration := 0,
    transitionPreCuePosition := 0, transitionCuePosition := 0,
    transitionStartPosition := 0, transitionEndPosition := 0 }

/-- The engine right after construction, with an arbitrary fading and
transition configuration (the configuration is not changed by the
modelled steps). -/
def initState (fc ff mld mtt : ℚ) : EngineState :=
  { deck1 := initDeck, deck2 := initDeck, deckQueue := [],
    transitionState := .Idle, transitingDeck := none, forceFadingOut := 0,
    keepPlaying := false, queue := [],
    fadingCurve := fc, fadingFactor := ff,
    maxLeadingDuration := mld, maxTransitionTime := mtt }

/-- The engine states reachable from construction through the event
steps. -/
inductive Reachable (rpow : ℚ → ℚ → ℚ) : EngineState → Prop where
  | init (fc ff mld mtt : ℚ) : Reachable rpow (initState fc ff mld mtt)
  | step {s : EngineState} {l : Label} {s' : EngineState} :
      Reachable rpow s → EStep rpow s l s' → Reachable rpow s'

/-- Whether a step dispatches the preCueNext listener callback: the
only call site in the source is the Idle branch of
Medley::deckPosition, for a main sender past the pre-cue point. -/
def emitsPreCue (s : EngineState) : Label → Bool
  | .position d pos =>
    (s.deck d).main && decide (s.transitionState = .Idle) &&
      decide (pos > (s.deck d).transitionPreCuePosition)
  | _ => false

/-- The engine invariant, proved to hold in every reachable state: the
deckQueue is duplicate-free and lists exactly the decks with a loaded
track, the is-main flag marks exactly the queue head, the transiting
deck exists exactly from Cued on and heads the queue, the forced
fade-out counter never goes negative, and during an active Transit the
incoming deck is neither reloading nor — when its leading is short —
below unit volume. -/
structure Inv (s : EngineState) : Prop where
  main_iff : ∀ d, (s.deck d).main = true ↔ s.deckQueue.head? = some d
  loaded_iff : ∀ d, (s.deck d).trackLoaded = true ↔ d ∈ s.deckQueue
  nodup : s.deckQueue.Nodup
  not_loaded_loading : ∀ d, ¬((s.deck d).trackLoaded = true ∧ (s.deck d).isTrackLoading = true)
  transiting_none : s.transitionState.toNat < TransitionState.Cued.toNat →
    s.transitingDeck = none
  transiting_head : TransitionState.Cued.toNat ≤ s.transitionState.toNat →
    ∃ td, s.transitingDeck = some td ∧ s.deckQueue.head? = some td
  ffo_nonneg : 0 ≤ s.forceFadingOut
  no_reload_in_transit : ∀ td, s.transitionState = .Transit → s.transitingDeck = some td →
    (s.deck td).playing = true → (s.deck td.other).isTrackLoading = false
  short_leading_unit_volume : ∀ td, s.transitionState = .Transit →
    s.transitingDeck = some td → (s.deck td).playing = true →
    (s.deck td.other).trackLoaded = true →
    (s.deck td.other).leadingDuration < s.maxLeadingDuration →
    (s.deck td.other).volume = FVal.num 1

/-- A placeholder for std::pow in concrete evaluations. -/
def wRpow : ℚ → ℚ → ℚ := fun q _ => q

/-- A decodable track for concrete runs. -/
def wTrack : Track := { loadable := true }

/-- Anchors of the first concrete track (loaded on deck1). -/
def wInfo1 : TrackInfo :=
  { firstAudiblePosition := 0, leadingDuration := 1,
    transitionPreCuePosition := 10, transitionCuePosition := 20,
    transitionStartPosition := 30, transitionEndPosition := 40 }

/-- Anchors of the second concrete track (loaded on deck2), with a
leading duration below the engine maxLeadingDuration of 10. -/
def wInfo2 : TrackInfo :=
  { firstAudiblePosition := 0, leadingDuration := 5,
    transitionPreCuePosition := 100, transitionCuePosition := 100,
    transitionStartPosition := 100, transitionEndPosition := 110 }

/-- A concrete engine run: enqueue, play, first track loads on deck1,
a second track is enqueued, the position event at 25 cues it onto
deck2, it loads, and the position event at 31 enters Transit. -/
def wS1 : EngineState :=
  { initState 0 0 10 0 with queue := (initState 0 0 10 0).queue ++ [wTrack] }

def wS2 : EngineState := Medley.play wS1

def wS3 : EngineState := deckLoaded (wS2.updateDeck .deck1 (completeLoad wInfo1)) .deck1

def wS4 : EngineState := { wS3 with queue := wS3.queue ++ [wTrack] }

def wS5 : EngineState := deckPosition wRpow wS4 .deck1 25

def wS6 : EngineState := deckLoaded (wS5.updateDeck .deck2 (completeLoad wInfo2)) .deck2

def wS8 : EngineState := deckPosition wRpow wS6 .deck1 31

/-- The literal deck1 state after the first track loads and autoplays. -/
def wD1 : DeckState :=
  { trackLoaded := true, isTrackLoading := false, playing := true,
    pendingPlay := false, main := true, volume := .num 1, position := 0,
    firstAudiblePosition := 0, leadingDuration := 1,
    transitionPreCuePosition := 10, transitionCuePosition := 20,
    transitionStartPosition := 30, transitionEndPosition := 40 }

/-- The literal deck2 state after the second track loads (no autoplay). -/
def wD2 : DeckState :=
  { trackLoaded := true, isTrackLoading := false, playing := false,
    pendingPlay := false, main := false, volume := .num 1, position := 0,
    firstAudiblePosition := 0, leadingDuration := 5,
    transitionPreCuePosition := 100, transitionCuePosition := 100,
    transitionStartPosition := 100, transitionEndPosition := 110 }

@[simp] theorem deck_updateDeck (s : EngineState) (d e : DeckId) (f : DeckState → DeckState) :
    (s.updateDeck d f).deck e = if e = d then f (s.deck d) else s.deck e := by
  cases d <;> cases e <;> simp [EngineState.updateDeck, EngineState.deck]

theorem listRemove_mem {q : List DeckId} {d e : DeckId} :
    e ∈ listRemove q d ↔ e ∈ q ∧ e ≠ d := by
  simp [listRemove]

theorem listRemove_nodup {q : List DeckId} (h : q.Nodup) (d : DeckId) :
    (listRemove q d).Nodup :=
  h.filter _

theorem listRemove_head_ne {q : List DeckId} {d f : DeckId}
    (hf : q.head? = some f) (hne : f ≠ d) : (listRemove q d).head? = some f := by
  cases q with
  | nil => simp at hf
  | cons a rest =>
    simp at hf
    subst hf
    simp [listRemove, List.filter_cons, hne]

theorem listRemove_cons_self {rest : List DeckId} {d : DeckId} (h : d ∉ rest) :
    listRemove (d :: rest) d = rest := by
  have h1 : listRemove (d :: rest) d = listRemove rest d := by
    simp [listRemove, List.filter_cons]
  rw [h1]
  exact List.filter_eq_self.mpr (by
    intro x hx
    simp only [decide_eq_true_eq]
    rintro rfl
    exact h hx)

theorem head?_append_singleton (q : List DeckId) (d : DeckId) :
    (q ++ [d]).head? = some (q.headD d) := by
  cases q <;> simp

/-- fetchLoop changes only the loading and autoplay-request flags of
the deck it works on. -/
theorem fetchLoop_frame (play : Bool) (ds : DeckState) (q : List Track) :
    ((fetchLoop play ds q).2.1.trackLoaded = ds.trackLoaded ∧
     (fetchLoop play ds q).2.1.main = ds.main) ∧
    (fetchLoop play ds q).2.1.playing = ds.playing ∧
    (fetchLoop play ds q).2.1.volume = ds.volume := by
  induction q with
  | nil => simp [fetchLoop]
  | cons t rest ih =>
    by_cases h : (loadTrack ds t play).1
    · have : (loadTrack ds t play).2.trackLoaded = ds.trackLoaded ∧
          (loadTrack ds t play).2.main = ds.main ∧
          (loadTrack ds t play).2.playing = ds.playing ∧
          (loadTrack ds t play).2.volume = ds.volume := by
        unfold loadTrack
        split <;> simp
      simp only [fetchLoop, h, if_true]
      exact ⟨⟨this.1, this.2.1⟩, this.2.2.1, this.2.2.2⟩
    · simp only [fetchLoop, h, if_false]
      exact ih

theorem fetchLoop_not_loaded_loading (play : Bool) (ds : DeckState) (q : List Track)
    (h : ¬(ds.trackLoaded = true ∧ ds.isTrackLoading = true)) :
    ¬((fetchLoop play ds q).2.1.trackLoaded = true ∧
      (fetchLoop play ds q).2.1.isTrackLoading = true) := by
  induction q with
  | nil => simp only [fetchLoop]; exact h
  | cons t rest ih =>
    by_cases hl : (loadTrack ds t play).1
    · have hacc : ds.trackLoaded = false := by
        unfold loadTrack at hl
        by_cases hc : ds.trackLoaded
        · simp [hc] at hl
        · simpa using hc
      have : (loadTrack ds t play).2.trackLoaded = ds.trackLoaded := by
        unfold loadTrack
        split <;> simp
      simp only [fetchLoop, hl, if_true]
      rw [this, hacc]
      simp
    · simp only [fetchLoop, hl, if_false]
      exact ih

@[simp] theorem deck_at_deck1 (s : EngineState) : s.deck .deck1 = s.deck1 := rfl

@[simp] theorem deck_at_deck2 (s : EngineState) : s.deck .deck2 = s.deck2 := rfl

/-- fetchLoop on a deck that already has a loaded track never succeeds
and leaves the deck untouched (every loadTrack call fails fast). -/
theorem fetchLoop_loaded (play : Bool) (ds : DeckState) (q : List Track)
    (h : ds.trackLoaded = true) :
    (fetchLoop play ds q).1 = false ∧ (fetchLoop play ds q).2.1 = ds := by
  induction q with
  | nil => simp [fetchLoop]
  | cons t rest ih =>
    have : loadTrack ds t play = (false, ds) := by
      unfold loadTrack
      simp [h]
    simp only [fetchLoop, this]
    simpa using ih

theorem loadNextTrack_none {s : EngineState} {c : Option DeckId} (p : Bool)
    (hga : getAnotherDeck s c = none) : loadNextTrack s c p = (false, s) := by
  unfold loadNextTrack
  rw [hga]

/-- The deck fetchLoop starts from inside loadNextTrack: the target
deck, force-unloaded first when it was busy loading. -/
def loadTarget (s : EngineState) (d : DeckId) : DeckState :=
  if (s.deck d).isTrackLoading then unloadDeck (s.deck d) else s.deck d

theorem loadNextTrack_some {s : EngineState} {c : Option DeckId} {d : DeckId} (p : Bool)
    (hga : getAnotherDeck s c = some d) :
    loadNextTrack s c p =
      ((fetchLoop p (loadTarget s d) s.queue).1,
       { (if (s.deck d).isTrackLoading then s.updateDeck d unloadDeck else s).updateDeck d
           (fun _ => (fetchLoop p (loadTarget s d) s.queue).2.1) with
         queue := (fetchLoop p (loadTarget s d) s.queue).2.2 }) := by
  unfold loadNextTrack
  rw [hga]
  by_cases hl : (s.deck d).isTrackLoading <;>
    simp [hl, loadTarget]

theorem loadNextTrack_engine_frame (s : EngineState) (c : Option DeckId) (p : Bool) :
    (loadNextTrack s c p).2.deckQueue = s.deckQueue ∧
    (loadNextTrack s c p).2.transitionState = s.transitionState ∧
    (loadNextTrack s c p).2.transitingDeck = s.transitingDeck ∧
    (loadNextTrack s c p).2.forceFadingOut = s.forceFadingOut ∧
    (loadNextTrack s c p).2.keepPlaying = s.keepPlaying ∧
    (loadNextTrack s c p).2.maxLeadingDuration = s.maxLeadingDuration ∧
    (loadNextTrack s c p).2.fadingFactor = s.fadingFactor := by
  cases hga : getAnotherDeck s c with
  | none => rw [loadNextTrack_none p hga]; exact ⟨rfl, rfl, rfl, rfl, rfl, rfl, rfl⟩
  | some d =>
    rw [loadNextTrack_some p hga]
    by_cases hl : (s.deck d).isTrackLoading <;> simp [hl]

/-- Decks other than the target are untouched by loadNextTrack. -/
theorem loadNextTrack_deck_other {s : EngineState} {c : Option DeckId} {d : DeckId} (p : Bool)
    (hga : getAnotherDeck s c = some d) :
    ∀ e, e ≠ d → (loadNextTrack s c p).2.deck e = s.deck e := by
  intro e he
  rw [loadNextTrack_some p hga]
  by_cases hl : (s.deck d).isTrackLoading <;> cases d <;> cases e <;>
    simp_all [EngineState.updateDeck, EngineState.deck]

/-- The target deck after loadNextTrack is the fetchLoop output. -/
theorem loadNextTrack_deck_target {s : EngineState} {c : Option DeckId} {d : DeckId} (p : Bool)
    (hga : getAnotherDeck s c = some d) :
    (loadNextTrack s c p).2.deck d = (fetchLoop p (loadTarget s d) s.queue).2.1 := by
  rw [loadNextTrack_some p hga]
  by_cases hl : (s.deck d).isTrackLoading <;> cases d <;>
    simp_all [EngineState.updateDeck, EngineState.deck]

theorem loadTarget_frame (s : EngineState) (d : DeckId)
    (hnl : ¬((s.deck d).trackLoaded = true ∧ (s.deck d).isTrackLoading = true)) :
    (loadTarget s d).trackLoaded = (s.deck d).trackLoaded ∧
    (loadTarget s d).main = (s.deck d).main ∧
    (loadTarget s d).volume = (s.deck d).volume ∧
    ((loadTarget s d).playing = true → (s.deck d).playing = true) ∧
    ¬((loadTarget s d).trackLoaded = true ∧ (loadTarget s d).isTrackLoading = true) := by
  unfold loadTarget
  by_cases hl : (s.deck d).isTrackLoading
  · have : (s.deck d).trackLoaded = false := by
      by_cases hc : (s.deck d).trackLoaded
      · exact absurd ⟨hc, hl⟩ hnl
      · simpa using hc
    simp [hl, unloadDeck, this]
  · simp [hl, hnl]

/-- The per-deck facts preserved by loadNextTrack: the main flag, the
loaded flag, the volume, playing (downwards) and the exclusion of
loaded-and-loading, for every deck. -/
theorem loadNextTrack_deck_frame (s : EngineState) (c : Option DeckId) (p : Bool)
    (hnl : ∀ e, ¬((s.deck e).trackLoaded = true ∧ (s.deck e).isTrackLoading = true)) :
    ∀ e, ((loadNextTrack s c p).2.deck e).main = (s.deck e).main ∧
      ((loadNextTrack s c p).2.deck e).trackLoaded = (s.deck e).trackLoaded ∧
      ((loadNextTrack s c p).2.deck e).volume = (s.deck e).volume ∧
      (((loadNextTrack s c p).2.deck e).playing = true → (s.deck e).playing = true) ∧
      ¬(((loadNextTrack s c p).2.deck e).trackLoaded = true ∧
        ((loadNextTrack s c p).2.deck e).isTrackLoading = true) := by
  intro e
  cases hga : getAnotherDeck s c with
  | none =>
    rw [loadNextTrack_none p hga]
    exact ⟨rfl, rfl, rfl, fun h => h, hnl e⟩
  | some d =>
    by_cases he : e = d
    · subst he
      rw [loadNextTrack_deck_target p hga]
      obtain ⟨hT, hM, hV, hP, hNL⟩ := loadTarget_frame s e (hnl e)
      obtain ⟨⟨fT, fM⟩, fP, fV⟩ := fetchLoop_frame p (loadTarget s e) s.queue
      refine ⟨fM.trans hM, fT.trans hT, fV.trans hV, ?_, ?_⟩
      · intro h
        exact hP (fP ▸ h)
      · exact fetchLoop_not_loaded_loading p (loadTarget s e) s.queue hNL
    · rw [loadNextTrack_deck_other p hga e he]
      exact ⟨rfl, rfl, rfl, fun h => h, hnl e⟩

theorem inv_initState (fc ff mld mtt : ℚ) : Inv (initState fc ff mld mtt) := by
  refine ⟨?_, ?_, ?_, ?_, ?_, ?_, ?_, ?_, ?_⟩
  · intro d; cases d <;> simp [initState, initDeck]
  · intro d; cases d <;> simp [initState, initDeck]
  · simp [initState]
  · intro d; cases d <;> simp [initState, initDeck]
  · intro _; rfl
  · intro h; simp [initState, TransitionState.toNat] at h
  · simp [initState]
  · intro td h; simp [initState] at h
  · intro td h; simp [initState] at h

/-- Inv only looks at the decks, deckQueue, the transition fields, the
forced fade-out counter and maxLeadingDuration. -/
theorem inv_congr {s s' : EngineState} (h : Inv s)
    (hd : ∀ e, s'.deck e = s.deck e) (hq : s'.deckQueue = s.deckQueue)
    (hts : s'.transitionState = s.transitionState)
    (htd : s'.transitingDeck = s.transitingDeck)
    (hff : 0 ≤ s'.forceFadingOut)
    (hm : s'.maxLeadingDuration = s.maxLeadingDuration) : Inv s' := by
  refine ⟨?_, ?_, ?_, ?_, ?_, ?_, ?_, ?_, ?_⟩
  · intro d; simp only [hd, hq]; exact h.main_iff d
  · intro d; simp only [hd, hq]; exact h.loaded_iff d
  · rw [hq]; exact h.nodup
  · intro d; simp only [hd]; exact h.not_loaded_loading d
  · simp only [hts, htd]; exact h.transiting_none
  · simp only [hts, htd, hq]; exact h.transiting_head
  · exact hff
  · intro td; simp only [hts, htd, hd]; exact h.no_reload_in_transit td
  · intro td; simp only [hts, htd, hd, hm]; exact h.short_leading_unit_volume td

theorem inv_enqueue {s : EngineState} (h : Inv s) (t : Track) :
    Inv { s with queue := s.queue ++ [t] } :=
  inv_congr h (fun e => by cases e <;> rfl) rfl rfl rfl h.ffo_nonneg rfl

/-- A deck update that only touches the playing, pendingPlay, position
or volume fields preserves the invariant apart from the two
transit-activity clauses, which hold as long as the update does not
raise the transiting deck's playing flag, does not change the other
deck's volume while it matters, and keeps everything else equal.  This
covers stepFinished, stop and the start calls. -/
theorem inv_update_passive {s : EngineState} (h : Inv s) (d : DeckId)
    (f : DeckState → DeckState)
    (hmain : (f (s.deck d)).main = (s.deck d).main)
    (hloaded : (f (s.deck d)).trackLoaded = (s.deck d).trackLoaded)
    (hloading : (f (s.deck d)).isTrackLoading = (s.deck d).isTrackLoading)
    (hlead : (f (s.deck d)).leadingDuration = (s.deck d).leadingDuration)
    (hplay : (f (s.deck d)).playing = true → (s.deck d).playing = true)
    (hvol : (f (s.deck d)).volume = (s.deck d).volume) :
    Inv (s.updateDeck d f) := by
  have hdm : ∀ e, ((s.updateDeck d f).deck e).main = (s.deck e).main := by
    intro e; by_cases he : e = d <;> simp [he]
    subst he; exact hmain
  have hdl : ∀ e, ((s.updateDeck d f).deck e).trackLoaded = (s.deck e).trackLoaded := by
    intro e; by_cases he : e = d <;> simp [he]
    subst he; exact hloaded
  have hdg : ∀ e, ((s.updateDeck d f).deck e).isTrackLoading = (s.deck e).isTrackLoading := by
    intro e; by_cases he : e = d <;> simp [he]
    subst he; exact hloading
  have hdd : ∀ e, ((s.updateDeck d f).deck e).leadingDuration = (s.deck e).leadingDuration := by
    intro e; by_cases he : e = d <;> simp [he]
    subst he; exact hlead
  have hdp : ∀ e, ((s.updateDeck d f).deck e).playing = true → (s.deck e).playing = true := by
    intro e; by_cases he : e = d <;> simp [he]
    subst he; exact hplay
  have hdv : ∀ e, ((s.updateDeck d f).deck e).volume = (s.deck e).volume := by
    intro e; by_cases he : e = d <;> simp [he]
    subst he; exact hvol
  refine ⟨?_, ?_, ?_, ?_, ?_, ?_, ?_, ?_, ?_⟩
  · intro e; simp only [hdm, updateDeck_deckQueue]; exact h.main_iff e
  · intro e; simp only [hdl, updateDeck_deckQueue]; exact h.loaded_iff e
  · simpa using h.nodup
  · intro e; simp only [hdl, hdg]; exact h.not_loaded_loading e
  · simpa using h.transiting_none
  · simpa using h.transiting_head
  · simpa using h.ffo_nonneg
  · intro td hts htd hp
    simp only [updateDeck_transitionState] at hts
    simp only [updateDeck_transitingDeck] at htd
    simp only [hdg]
    exact h.no_reload_in_transit td hts htd (hdp td hp)
  · intro td hts htd hp hl hld
    simp only [updateDeck_transitionState] at hts
    simp only [updateDeck_transitingDeck] at htd
    simp only [hdl] at hl
    simp only [hdd, updateDeck_maxLeadingDuration] at hld
    simp only [hdv]
    exact h.short_leading_unit_volume td hts htd (hdp td hp) hl hld

theorem inv_finished {s : EngineState} (h : Inv s) (d : DeckId) :
    Inv (s.updateDeck d (fun ds => { ds with playing := false })) :=
  inv_update_passive h d _ rfl rfl rfl rfl (by simp) rfl

theorem head?_mem {l : List DeckId} {a : DeckId} (h : l.head? = some a) : a ∈ l := by
  cases l with
  | nil => simp at h
  | cons b t =>
    simp at h
    exact h ▸ List.mem_cons_self _ _

/-- The intermediate invariant between the transiting-deck part and
the deck-queue part of Medley::deckUnloaded, for an unloading deck d
whose deck-side state is already cleared but which may still sit in
deckQueue with its main flag set. -/
structure QInv (s : EngineState) (d : DeckId) : Prop where
  main_iff : ∀ e, (s.deck e).main = true ↔ s.deckQueue.head? = some e
  loaded_iff : ∀ e, e ≠ d → ((s.deck e).trackLoaded = true ↔ e ∈ s.deckQueue)
  cleared : (s.deck d).trackLoaded = false ∧ (s.deck d).isTrackLoading = false
  nodup : s.deckQueue.Nodup
  not_loaded_loading : ∀ e,
    ¬((s.deck e).trackLoaded = true ∧ (s.deck e).isTrackLoading = true)
  transiting_none : s.transitionState.toNat < TransitionState.Cued.toNat →
    s.transitingDeck = none
  transiting_head : TransitionState.Cued.toNat ≤ s.transitionState.toNat →
    ∃ td, s.transitingDeck = some td ∧ s.deckQueue.head? = some td ∧ td ≠ d
  ffo_nonneg : 0 ≤ s.forceFadingOut
  no_reload : ∀ td, s.transitionState = .Transit → s.transitingDeck = some td →
    (s.deck td).playing = true → (s.deck td.other).isTrackLoading = false
  short_vol : ∀ td, s.transitionState = .Transit → s.transitingDeck = some td →
    (s.deck td).playing = true → (s.deck td.other).trackLoaded = true →
    (s.deck td.other).leadingDuration < s.maxLeadingDuration →
    (s.deck td.other).volume = FVal.num 1

@[simp] theorem deck_transit_bookkeeping (s : EngineState) (a : TransitionState)
    (b : Option DeckId) (c : Int) (e : DeckId) :
    ({ s with
        transitionState := a
        transitingDeck := b
        forceFadingOut := c } : EngineState).deck e = s.deck e := by
  cases e <;> rfl

theorem qinv_after_transit {s : EngineState} (h : Inv s) (d : DeckId) :
    QInv (deckUnloadedTransit (s.updateDeck d unloadDeck) d) d := by
  have h0main : ∀ e, ((s.updateDeck d unloadDeck).deck e).main = (s.deck e).main := by
    intro e
    cases d <;> cases e <;> simp [EngineState.updateDeck, EngineState.deck, unloadDeck]
  have h0loaded : ∀ e,
      ((s.updateDeck d unloadDeck).deck e).trackLoaded =
        if e = d then false else (s.deck e).trackLoaded := by
    intro e
    cases d <;> cases e <;> simp [EngineState.updateDeck, EngineState.deck, unloadDeck]
  have h0loading : ∀ e,
      ((s.updateDeck d unloadDeck).deck e).isTrackLoading =
        if e = d then false else (s.deck e).isTrackLoading := by
    intro e
    cases d <;> cases e <;> simp [EngineState.updateDeck, EngineState.deck, unloadDeck]
  have h0playing : ∀ e, e ≠ d →
      ((s.updateDeck d unloadDeck).deck e).playing = (s.deck e).playing := by
    intro e he; simp [he]
  have h0vol : ∀ e, ((s.updateDeck d unloadDeck).deck e).volume = (s.deck e).volume := by
    intro e
    cases d <;> cases e <;> simp [EngineState.updateDeck, EngineState.deck, unloadDeck]
  have h0lead : ∀ e, e ≠ d →
      ((s.updateDeck d unloadDeck).deck e).leadingDuration = (s.deck e).leadingDuration := by
    intro e he; simp [he]
  -- the same component facts after the optional start of the other deck
  have hXmain : ∀ e,
      (((s.updateDeck d unloadDeck).updateDeck d.other
        (fun ds => { ds with playing := true })).deck e).main = (s.deck e).main := by
    intro e
    cases d <;> cases e <;>
      simp [EngineState.updateDeck, EngineState.deck, unloadDeck, DeckId.other]
  have hXloaded : ∀ e,
      (((s.updateDeck d unloadDeck).updateDeck d.other
        (fun ds => { ds with playing := true })).deck e).trackLoaded =
        if e = d then false else (s.deck e).trackLoaded := by
    intro e
    cases d <;> cases e <;>
      simp [EngineState.updateDeck, EngineState.deck, unloadDeck, DeckId.other]
  have hXloading : ∀ e,
      (((s.updateDeck d unloadDeck).updateDeck d.other
        (fun ds => { ds with playing := true })).deck e).isTrackLoading =
        if e = d then false else (s.deck e).isTrackLoading := by
    intro e
    cases d <;> cases e <;>
      simp [EngineState.updateDeck, EngineState.deck, unloadDeck, DeckId.other]
  unfold deckUnloadedTransit
  by_cases hT : (s.updateDeck d unloadDeck).transitingDeck = some d
  · rw [if_pos hT]
    split_ifs with hC
    case pos =>
      refine ⟨?_, ?_, ?_, ?_, ?_, ?_, ?_, ?_, ?_, ?_⟩
      · intro e
        simp only [deck_transit_bookkeeping]
        simp only [updateDeck_deckQueue]
        rw [hXmain e]
        exact h.main_iff e
      · intro e he
        simp only [deck_transit_bookkeeping]
        simp only [updateDeck_deckQueue]
        rw [hXloaded e, if_neg he]
        exact h.loaded_iff e
      · simp only [deck_transit_bookkeeping]
        rw [hXloaded d, hXloading d]
        simp
      · simp only [updateDeck_deckQueue]
        exact h.nodup
      · intro e
        simp only [deck_transit_bookkeeping]
        rw [hXloaded e, hXloading e]
        by_cases he : e = d
        · simp [he]
        · simp only [if_neg he]
          exact h.not_loaded_loading e
      · intro _; rfl
      · intro hx
        simp [TransitionState.toNat] at hx
      · simp only [updateDeck_forceFadingOut]
        have := h.ffo_nonneg
        split_ifs <;> omega
      · intro td hts
        simp at hts
      · intro td hts
        simp at hts
    case neg =>
      refine ⟨?_, ?_, ?_, ?_, ?_, ?_, ?_, ?_, ?_, ?_⟩
      · intro e
        simp only [deck_transit_bookkeeping]
        simp only [updateDeck_deckQueue]
        rw [h0main e]
        exact h.main_iff e
      · intro e he
        simp only [deck_transit_bookkeeping]
        simp only [updateDeck_deckQueue]
        rw [h0loaded e, if_neg he]
        exact h.loaded_iff e
      · simp only [deck_transit_bookkeeping]
        rw [h0loaded d, h0loading d]
        simp
      · simp only [updateDeck_deckQueue]
        exact h.nodup
      · intro e
        simp only [deck_transit_bookkeeping]
        rw [h0loaded e, h0loading e]
        by_cases he : e = d
        · simp [he]
        · simp only [if_neg he]
          exact h.not_loaded_loading e
      · intro _; rfl
      · intro hx
        simp [TransitionState.toNat] at hx
      · simp only [updateDeck_forceFadingOut]
        have := h.ffo_nonneg
        split_ifs <;> omega
      · intro td hts
        simp at hts
      · intro td hts
        simp at hts
  · rw [if_neg hT]
    have hT2 : s.transitingDeck ≠ some d := by simpa using hT
    refine ⟨?_, ?_, ?_, ?_, ?_, ?_, ?_, ?_, ?_, ?_⟩
    · intro e
      simp only [updateDeck_deckQueue]
      rw [h0main e]
      exact h.main_iff e
    · intro e he
      simp only [updateDeck_deckQueue]
      rw [h0loaded e, if_neg he]
      exact h.loaded_iff e
    · rw [h0loaded d, h0loading d]
      simp
    · simp only [updateDeck_deckQueue]
      exact h.nodup
    · intro e
      rw [h0loaded e, h0loading e]
      by_cases he : e = d
      · simp [he]
      · simp only [if_neg he]
        exact h.not_loaded_loading e
    · intro hx
      simp only [updateDeck_transitionState] at hx
      simpa using h.transiting_none hx
    · intro hx
      simp only [updateDeck_transitionState] at hx
      obtain ⟨td, htd, hh⟩ := h.transiting_head hx
      refine ⟨td, by simpa using htd, by simpa using hh, ?_⟩
      rintro rfl
      exact hT2 htd
    · simpa using h.ffo_nonneg
    · intro td hts htd hp
      simp only [updateDeck_transitionState] at hts
      simp only [updateDeck_transitingDeck] at htd
      have htdd : td ≠ d := by rintro rfl; exact hT2 htd
      rw [h0playing td htdd] at hp
      rw [h0loading]
      by_cases ho : td.other = d
      · simp [ho]
      · simp only [if_neg ho]
        exact h.no_reload_in_transit td hts htd hp
    · intro td hts htd hp hl hld
      simp only [updateDeck_transitionState] at hts
      simp only [updateDeck_transitingDeck] at htd
      have htdd : td ≠ d := by rintro rfl; exact hT2 htd
      rw [h0playing td htdd] at hp
      rw [h0loaded] at hl
      by_cases ho : td.other = d
      · rw [if_pos ho] at hl
        simp at hl
      · rw [if_neg ho] at hl
        rw [h0lead _ ho] at hld
        rw [h0vol]
        simp only [updateDeck_maxLeadingDuration] at hld
        exact h.short_leading_unit_volume td hts htd hp hl hld

theorem deck_markAsMain (s : EngineState) (d : DeckId) (b : Bool) (e : DeckId) :
    (markAsMain s d b).deck e = if e = d then { s.deck d with main := b } else s.deck e := by
  unfold markAsMain
  exact deck_updateDeck s d e _

theorem inv_deckUnloadedQueue {s : EngineState} {d : DeckId} (h : QInv s d) :
    Inv (deckUnloadedQueue s d) := by
  have hq1 : (markAsMain s d false).deckQueue = s.deckQueue := by
    simp [markAsMain]
  have hs1main : ∀ e, ((markAsMain s d false).deck e).main =
      if e = d then false else (s.deck e).main := by
    intro e
    by_cases he : e = d
    · subst he; simp [markAsMain]
    · simp [markAsMain, he]
  have hs1loaded : ∀ e, ((markAsMain s d false).deck e).trackLoaded = (s.deck e).trackLoaded := by
    intro e
    by_cases he : e = d
    · subst he; simp [markAsMain]
    · simp [markAsMain, he]
  have hs1loading : ∀ e, ((markAsMain s d false).deck e).isTrackLoading =
      (s.deck e).isTrackLoading := by
    intro e
    by_cases he : e = d
    · subst he; simp [markAsMain]
    · simp [markAsMain, he]
  have hs1playing : ∀ e, ((markAsMain s d false).deck e).playing = (s.deck e).playing := by
    intro e
    by_cases he : e = d
    · subst he; simp [markAsMain]
    · simp [markAsMain, he]
  have hs1vol : ∀ e, ((markAsMain s d false).deck e).volume = (s.deck e).volume := by
    intro e
    by_cases he : e = d
    · subst he; simp [markAsMain]
    · simp [markAsMain, he]
  have hs1lead : ∀ e, ((markAsMain s d false).deck e).leadingDuration =
      (s.deck e).leadingDuration := by
    intro e
    by_cases he : e = d
    · subst he; simp [markAsMain]
    · simp [markAsMain, he]
  unfold deckUnloadedQueue
  simp only [hq1]
  by_cases hnil : listRemove s.deckQueue d = []
  · rw [if_pos (by simp [hnil])]
    refine ⟨?_, ?_, ?_, ?_, ?_, ?_, ?_, ?_, ?_⟩
    · intro e
      have hde : ∀ e2, (({ markAsMain s d false with
          deckQueue := listRemove s.deckQueue d } : EngineState).deck e2) =
          (markAsMain s d false).deck e2 := by
        intro e2; cases e2 <;> rfl
      rw [hde, hs1main, hnil]
      by_cases he : e = d
      · simp [he]
      · simp only [if_neg he]
        constructor
        · intro hm
          have := (h.main_iff e).mp hm
          have h2 := listRemove_head_ne this he
          rw [hnil] at h2
          simp at h2
        · intro hm
          simp at hm
    · intro e
      have hde : ∀ e2, (({ markAsMain s d false with
          deckQueue := listRemove s.deckQueue d } : EngineState).deck e2) =
          (markAsMain s d false).deck e2 := by
        intro e2; cases e2 <;> rfl
      rw [hde, hs1loaded, hnil]
      by_cases he : e = d
      · subst he
        simp [h.cleared.1]
      · simp only [List.not_mem_nil, iff_false]
        intro hl
        have := (h.loaded_iff e he).mp hl
        have h2 : e ∈ listRemove s.deckQueue d := listRemove_mem.mpr ⟨this, he⟩
        rw [hnil] at h2
        simp at h2
    · simp [hnil]
    · intro e
      have hde : ∀ e2, (({ markAsMain s d false with
          deckQueue := listRemove s.deckQueue d } : EngineState).deck e2) =
          (markAsMain s d false).deck e2 := by
        intro e2; cases e2 <;> rfl
      rw [hde, hs1loaded, hs1loading]
      exact h.not_loaded_loading e
    · intro hx
      simp only [markAsMain, updateDeck_transitionState] at hx
      simp only [markAsMain, updateDeck_transitingDeck]
      exact h.transiting_none hx
    · intro hx
      simp only [markAsMain, updateDeck_transitionState] at hx
      obtain ⟨td, htd, hh, hne⟩ := h.transiting_head hx
      have h2 := listRemove_head_ne hh hne
      rw [hnil] at h2
      simp at h2
    · simp only [markAsMain, updateDeck_forceFadingOut]
      exact h.ffo_nonneg
    · intro td hts htd hp
      simp only [markAsMain, updateDeck_transitionState] at hts
      simp only [markAsMain, updateDeck_transitingDeck] at htd
      have hde : ∀ e2, (({ markAsMain s d false with
          deckQueue := listRemove s.deckQueue d } : EngineState).deck e2) =
          (markAsMain s d false).deck e2 := by
        intro e2; cases e2 <;> rfl
      rw [hde, hs1playing] at hp
      rw [hde, hs1loading]
      exact h.no_reload td hts htd hp
    · intro td hts htd hp hl hld
      simp only [markAsMain, updateDeck_transitionState] at hts
      simp only [markAsMain, updateDeck_transitingDeck] at htd
      have hde : ∀ e2, (({ markAsMain s d false with
          deckQueue := listRemove s.deckQueue d } : EngineState).deck e2) =
          (markAsMain s d false).deck e2 := by
        intro e2; cases e2 <;> rfl
      rw [hde, hs1playing] at hp
      rw [hde, hs1loaded] at hl
      rw [hde, hs1lead] at hld
      simp only [markAsMain, updateDeck_maxLeadingDuration] at hld
      rw [hde, hs1vol]
      exact h.short_vol td hts htd hp hl hld
  · rw [if_neg (by simpa using hnil)]
    obtain ⟨f, hr⟩ : ∃ f, (listRemove s.deckQueue d).head? = some f := by
      cases hE : listRemove s.deckQueue d with
      | nil => exact absurd hE hnil
      | cons a t => exact ⟨a, by simp [hE]⟩
    have hfd : f ≠ d := (listRemove_mem.mp (head?_mem hr)).2
    unfold markFrontMain
    have hqueue2 : (({ markAsMain s d false with
        deckQueue := listRemove s.deckQueue d } : EngineState)).deckQueue =
        listRemove s.deckQueue d := rfl
    rw [show (({ markAsMain s d false with
        deckQueue := listRemove s.deckQueue d } : EngineState)).deckQueue.head? = some f from
      by rw [hqueue2]; exact hr]
    -- the final state marks f as the new main deck
    have hde : ∀ e2, (({ markAsMain s d false with
        deckQueue := listRemove s.deckQueue d } : EngineState).deck e2) =
        (markAsMain s d false).deck e2 := by
      intro e2; cases e2 <;> rfl
    have hTmain : ∀ e, ((markAsMain { markAsMain s d false with
        deckQueue := listRemove s.deckQueue d } f true).deck e).main =
        if e = f then true else if e = d then false else (s.deck e).main := by
      intro e
      rw [deck_markAsMain]
      by_cases hef : e = f
      · rw [if_pos hef, if_pos hef]
      · rw [if_neg hef, if_neg hef, hde, hs1main]
    have hTloaded2 : ∀ e, ((markAsMain { markAsMain s d false with
        deckQueue := listRemove s.deckQueue d } f true).deck e).trackLoaded =
        (s.deck e).trackLoaded := by
      intro e
      rw [deck_markAsMain]
      by_cases hef : e = f
      · rw [if_pos hef]
        rw [show ({ ({ markAsMain s d false with
            deckQueue := listRemove s.deckQueue d } : EngineState).deck f with
              main := true } : DeckState).trackLoaded =
            (({ markAsMain s d false with
              deckQueue := listRemove s.deckQueue d } : EngineState).deck f).trackLoaded from rfl]
        rw [hde, hs1loaded]
        rw [hef]
      · rw [if_neg hef, hde, hs1loaded]
    have hTloading2 : ∀ e, ((markAsMain { markAsMain s d false with
        deckQueue := listRemove s.deckQueue d } f true).deck e).isTrackLoading =
        (s.deck e).isTrackLoading := by
      intro e
      rw [deck_markAsMain]
      by_cases hef : e = f
      · rw [if_pos hef]
        rw [show ({ ({ markAsMain s d false with
            deckQueue := listRemove s.deckQueue d } : EngineState).deck f with
              main := true } : DeckState).isTrackLoading =
            (({ markAsMain s d false with
              deckQueue := listRemove s.deckQueue d } : EngineState).deck f).isTrackLoading from rfl]
        rw [hde, hs1loading]
        rw [hef]
      · rw [if_neg hef, hde, hs1loading]
    have hTplaying2 : ∀ e, ((markAsMain { markAsMain s d false with
        deckQueue := listRemove s.deckQueue d } f true).deck e).playing =
        (s.deck e).playing := by
      intro e
      rw [deck_markAsMain]
      by_cases hef : e = f
      · rw [if_pos hef]
        rw [show ({ ({ markAsMain s d false with
            deckQueue := listRemove s.deckQueue d } : EngineState).deck f with
              main := true } : DeckState).playing =
            (({ markAsMain s d false with
              deckQueue := listRemove s.deckQueue d } : EngineState).deck f).playing from rfl]
        rw [hde, hs1playing]
        rw [hef]
      · rw [if_neg hef, hde, hs1playing]
    have hTvol2 : ∀ e, ((markAsMain { markAsMain s d false with
        deckQueue := listRemove s.deckQueue d } f true).deck e).volume =
        (s.deck e).volume := by
      intro e
      rw [deck_markAsMain]
      by_cases hef : e = f
      · rw [if_pos hef]
        rw [show ({ ({ markAsMain s d false with
            deckQueue := listRemove s.deckQueue d } : EngineState).deck f with
              main := true } : DeckState).volume =
            (({ markAsMain s d false with
              deckQueue := listRemove s.deckQueue d } : EngineState).deck f).volume from rfl]
        rw [hde, hs1vol]
        rw [hef]
      · rw [if_neg hef, hde, hs1vol]
    have hTlead2 : ∀ e, ((markAsMain { markAsMain s d false with
        deckQueue := listRemove s.deckQueue d } f true).deck e).leadingDuration =
        (s.deck e).leadingDuration := by
      intro e
      rw [deck_markAsMain]
      by_cases hef : e = f
      · rw [if_pos hef]
        rw [show ({ ({ markAsMain s d false with
            deckQueue := listRemove s.deckQueue d } : EngineState).deck f with
              main := true } : DeckState).leadingDuration =
            (({ markAsMain s d false with
              deckQueue := listRemove s.deckQueue d } : EngineState).deck f).leadingDuration from rfl]
        rw [hde, hs1lead]
        rw [hef]
      · rw [if_neg hef, hde, hs1lead]
    have hTq : (markAsMain { markAsMain s d false with
        deckQueue := listRemove s.deckQueue d } f true).deckQueue =
        listRemove s.deckQueue d := by
      simp [markAsMain]
    refine ⟨?_, ?_, ?_, ?_, ?_, ?_, ?_, ?_, ?_⟩
    · intro e
      rw [hTmain, hTq, hr]
      by_cases hef : e = f
      · simp [hef]
      · simp only [if_neg hef]
        by_cases hed : e = d
        · subst hed
          constructor
          · intro hx; simp at hx
          · intro hx
            exact absurd (Option.some.inj hx).symm hef
        · simp only [if_neg hed]
          constructor
          · intro hm
            have := (h.main_iff e).mp hm
            have h2 := listRemove_head_ne this hed
            rw [hr] at h2
            exact absurd (Option.some.inj h2) (fun hx => hef hx.symm)
          · intro hx
            exact absurd (Option.some.inj hx).symm hef
    · intro e
      rw [hTloaded2, hTq]
      by_cases hed : e = d
      · subst hed
        rw [h.cleared.1]
        constructor
        · intro hx; simp at hx
        · intro hmem
          exact absurd rfl (listRemove_mem.mp hmem).2
      · rw [h.loaded_iff e hed]
        constructor
        · intro hm
          exact listRemove_mem.mpr ⟨hm, hed⟩
        · intro hm
          exact (listRemove_mem.mp hm).1
    · rw [hTq]
      exact listRemove_nodup h.nodup d
    · intro e
      rw [hTloaded2, hTloading2]
      exact h.not_loaded_loading e
    · intro hx
      simp only [markAsMain, updateDeck_transitionState] at hx
      simp only [markAsMain, updateDeck_transitingDeck]
      exact h.transiting_none hx
    · intro hx
      simp only [markAsMain, updateDeck_transitionState] at hx
      obtain ⟨td, htd, hh, hne⟩ := h.transiting_head hx
      refine ⟨td, ?_, by rw [hTq]; exact listRemove_head_ne hh hne⟩
      simp only [markAsMain, updateDeck_transitingDeck]
      exact htd
    · simp only [markAsMain, updateDeck_forceFadingOut]
      exact h.ffo_nonneg
    · intro td hts htd hp
      simp only [markAsMain, updateDeck_transitionState] at hts
      simp only [markAsMain, updateDeck_transitingDeck] at htd
      rw [hTplaying2] at hp
      rw [hTloading2]
      exact h.no_reload td hts htd hp
    · intro td hts htd hp hl hld
      simp only [markAsMain, updateDeck_transitionState] at hts
      simp only [markAsMain, updateDeck_transitingDeck] at htd
      rw [hTplaying2] at hp
      rw [hTloaded2] at hl
      rw [hTlead2] at hld
      simp only [markAsMain, updateDeck_maxLeadingDuration] at hld
      rw [hTvol2]
      exact h.short_vol td hts htd hp hl hld

theorem not_playing_of_isDeckPlaying_false {s : EngineState}
    (h : isDeckPlaying s = false) (e : DeckId) : (s.deck e).playing = false := by
  simp [isDeckPlaying] at h
  cases e <;> simp [h.1, h.2]

theorem inv_loadNextTrack {s : EngineState} (h : Inv s) (c : Option DeckId) (p : Bool)
    (hside : s.transitionState ≠ .Transit ∨ isDeckPlaying s = false) :
    Inv (loadNextTrack s c p).2 := by
  obtain ⟨hQ, hTS, hTD, hFF, hKP, hML, _⟩ := loadNextTrack_engine_frame s c p
  have hdeck := loadNextTrack_deck_frame s c p h.not_loaded_loading
  refine ⟨?_, ?_, ?_, ?_, ?_, ?_, ?_, ?_, ?_⟩
  · intro e; rw [(hdeck e).1, hQ]; exact h.main_iff e
  · intro e; rw [(hdeck e).2.1, hQ]; exact h.loaded_iff e
  · rw [hQ]; exact h.nodup
  · intro e; exact (hdeck e).2.2.2.2
  · rw [hTS, hTD]; exact h.transiting_none
  · rw [hTS, hTD, hQ]; exact h.transiting_head
  · rw [hFF]; exact h.ffo_nonneg
  · intro td hts htd hp
    rw [hTS] at hts
    cases hside with
    | inl hn => exact absurd hts hn
    | inr hnp =>
      have h1 := (hdeck td).2.2.2.1 hp
      rw [not_playing_of_isDeckPlaying_false hnp td] at h1
      simp at h1
  · intro td hts htd hp _ _
    rw [hTS] at hts
    cases hside with
    | inl hn => exact absurd hts hn
    | inr hnp =>
      have h1 := (hdeck td).2.2.2.1 hp
      rw [not_playing_of_isDeckPlaying_false hnp td] at h1
      simp at h1

theorem inv_recoverPlayback {s : EngineState} (h : Inv s) : Inv (recoverPlayback s) := by
  unfold recoverPlayback
  by_cases hc : (s.keepPlaying && !isDeckPlaying s) = true
  · have hnp : isDeckPlaying s = false := by
      simp at hc
      exact hc.2
    by_cases hq : (!s.queue.isEmpty) = true
    · simp only [hc, if_true, hq]
      have h1 : Inv { s with keepPlaying := true } :=
        inv_congr h (fun e => by cases e <;> rfl) rfl rfl rfl h.ffo_nonneg rfl
      refine inv_loadNextTrack h1 none true (Or.inr ?_)
      simpa [isDeckPlaying] using hnp
    · simp only [hc, if_true]
      rw [if_neg (by simpa using hq)]
      have h1 : Inv { s with keepPlaying := !s.queue.isEmpty } :=
        inv_congr h (fun e => by cases e <;> rfl) rfl rfl rfl h.ffo_nonneg rfl
      exact h1
  · rw [if_neg (by simpa using hc)]
    exact h

theorem inv_play {s : EngineState} (h : Inv s) : Inv (play s) := by
  unfold play
  by_cases hp : (!isDeckPlaying s) = true
  · rw [if_pos hp]
    have h1 : Inv (loadNextTrack s none true).2 :=
      inv_loadNextTrack h none true (Or.inr (by simpa using hp))
    have h2 : Inv { (loadNextTrack s none true).2 with keepPlaying := true } :=
      inv_congr h1 (fun e => by cases e <;> rfl) rfl rfl rfl h1.ffo_nonneg rfl
    exact h2
  · rw [if_neg (by simpa using hp)]
    have h2 : Inv { s with keepPlaying := true } :=
      inv_congr h (fun e => by cases e <;> rfl) rfl rfl rfl h.ffo_nonneg rfl
    exact h2

theorem inv_stop {s : EngineState} (h : Inv s) : Inv (stop s) := by
  have h2 : Inv ((s.updateDeck .deck1 (fun ds => { ds with playing := false })).updateDeck
      .deck2 (fun ds => { ds with playing := false })) :=
    inv_update_passive
      (inv_update_passive h .deck1 _ rfl rfl rfl rfl (by simp) rfl)
      .deck2 _ rfl rfl rfl rfl (by simp) rfl
  refine inv_congr h2 ?_ rfl rfl rfl h2.ffo_nonneg rfl
  intro e
  cases e <;> simp [stop, EngineState.updateDeck]

theorem inv_deckUnloaded_step {s : EngineState} (h : Inv s) (d : DeckId) :
    Inv (deckUnloaded (s.updateDeck d unloadDeck) d) := by
  unfold deckUnloaded deckUnloadedCore
  exact inv_recoverPlayback (inv_deckUnloadedQueue (qinv_after_transit h d))

theorem deckUnloadedTransit_idle {s : EngineState} {d : DeckId}
    (hT : s.transitingDeck = some d) :
    (deckUnloadedTransit s d).transitionState = .Idle ∧
    (deckUnloadedTransit s d).transitingDeck = none := by
  unfold deckUnloadedTransit
  rw [if_pos hT]
  constructor <;> rfl

theorem deckUnloadedQueue_frame (s : EngineState) (d : DeckId) :
    (deckUnloadedQueue s d).transitionState = s.transitionState ∧
    (deckUnloadedQueue s d).transitingDeck = s.transitingDeck := by
  unfold deckUnloadedQueue markFrontMain
  dsimp only
  split_ifs with h1
  · constructor <;> simp [markAsMain]
  · split <;> constructor <;> simp [markAsMain]

theorem recoverPlayback_frame (s : EngineState) :
    (recoverPlayback s).transitionState = s.transitionState ∧
    (recoverPlayback s).transitingDeck = s.transitingDeck := by
  unfold recoverPlayback
  dsimp only
  split_ifs with h1 h2
  · exact ⟨(loadNextTrack_engine_frame _ none true).2.1,
      (loadNextTrack_engine_frame _ none true).2.2.1⟩
  · exact ⟨rfl, rfl⟩
  · exact ⟨rfl, rfl⟩

theorem deckUnloaded_idle {s : EngineState} {d : DeckId}
    (hT : s.transitingDeck = some d) :
    (deckUnloaded s d).transitionState = .Idle ∧
    (deckUnloaded s d).transitingDeck = none := by
  unfold deckUnloaded deckUnloadedCore
  obtain ⟨h1, h2⟩ := deckUnloadedTransit_idle hT
  obtain ⟨h3, h4⟩ := deckUnloadedQueue_frame (deckUnloadedTransit s d) d
  obtain ⟨h5, h6⟩ := recoverPlayback_frame (deckUnloadedQueue (deckUnloadedTransit s d) d)
  exact ⟨by rw [h5, h3, h1], by rw [h6, h4, h2]⟩

theorem head?_append_of_head? {q : List DeckId} {a d : DeckId}
    (h : q.head? = some a) : (q ++ [d]).head? = some a := by
  cases q with
  | nil => simp at h
  | cons b t => simpa using h

theorem inv_deckLoaded_step {s : EngineState} (h : Inv s) (d : DeckId) (info : TrackInfo)
    (hg : (s.deck d).isTrackLoading = true) :
    Inv (deckLoaded (s.updateDeck d (completeLoad info)) d) := by
  have hnotloaded : (s.deck d).trackLoaded = false := by
    by_cases hc : (s.deck d).trackLoaded
    · exact absurd ⟨hc, hg⟩ (h.not_loaded_loading d)
    · simpa using hc
  have hnotmem : d ∉ s.deckQueue := by
    intro hm
    rw [(h.loaded_iff d).mpr hm] at hnotloaded
    simp at hnotloaded
  -- components of the state after completing the load
  have hs1main : ∀ e, ((s.updateDeck d (completeLoad info)).deck e).main = (s.deck e).main := by
    intro e
    by_cases he : e = d
    · subst he; simp [completeLoad]
    · simp [he]
  have hs1loaded : ∀ e, ((s.updateDeck d (completeLoad info)).deck e).trackLoaded =
      if e = d then true else (s.deck e).trackLoaded := by
    intro e
    by_cases he : e = d
    · subst he; simp [completeLoad]
    · simp [he]
  have hs1loading : ∀ e, ((s.updateDeck d (completeLoad info)).deck e).isTrackLoading =
      if e = d then false else (s.deck e).isTrackLoading := by
    intro e
    by_cases he : e = d
    · subst he; simp [completeLoad]
    · simp [he]
  have hs1playing : ∀ e, e ≠ d →
      ((s.updateDeck d (completeLoad info)).deck e).playing = (s.deck e).playing := by
    intro e he; simp [he]
  have hs1vol : ∀ e, e ≠ d →
      ((s.updateDeck d (completeLoad info)).deck e).volume = (s.deck e).volume := by
    intro e he; simp [he]
  have hs1lead : ∀ e, e ≠ d →
      ((s.updateDeck d (completeLoad info)).deck e).leadingDuration =
        (s.deck e).leadingDuration := by
    intro e he; simp [he]
  unfold deckLoaded markFrontMain
  have hq1 : (({ s.updateDeck d (completeLoad info) with
      deckQueue := (s.updateDeck d (completeLoad info)).deckQueue ++ [d] } :
      EngineState)).deckQueue = s.deckQueue ++ [d] := by
    simp
  have hde : ∀ e, (({ s.updateDeck d (completeLoad info) with
      deckQueue := (s.updateDeck d (completeLoad info)).deckQueue ++ [d] } :
      EngineState)).deck e = (s.updateDeck d (completeLoad info)).deck e := by
    intro e; cases e <;> rfl
  have hhead : (s.deckQueue ++ [d]).head? = some (s.deckQueue.headD d) := by
    cases s.deckQueue <;> simp
  rw [show (({ s.updateDeck d (completeLoad info) with
      deckQueue := (s.updateDeck d (completeLoad info)).deckQueue ++ [d] } :
      EngineState)).deckQueue.head? = some (s.deckQueue.headD d) from by rw [hq1, hhead]]
  set g := s.deckQueue.headD d with hg2
  have hgmem : g ∈ s.deckQueue ++ [d] := by
    rw [hg2]
    cases s.deckQueue <;> simp
  -- final deck components
  have hTmain : ∀ e, ((markAsMain { s.updateDeck d (completeLoad info) with
      deckQueue := (s.updateDeck d (completeLoad info)).deckQueue ++ [d] } g true).deck e).main =
      if e = g then true else (s.deck e).main := by
    intro e
    rw [deck_markAsMain]
    by_cases hef : e = g
    · rw [if_pos hef, if_pos hef]
    · rw [if_neg hef, if_neg hef, hde, hs1main]
  have hTloaded : ∀ e, ((markAsMain { s.updateDeck d (completeLoad info) with
      deckQueue := (s.updateDeck d (completeLoad info)).deckQueue ++ [d] } g
        true).deck e).trackLoaded =
      if e = d then true else (s.deck e).trackLoaded := by
    intro e
    rw [deck_markAsMain]
    by_cases hef : e = g
    · rw [if_pos hef]
      rw [show ({ (({ s.updateDeck d (completeLoad info) with
          deckQueue := (s.updateDeck d (completeLoad info)).deckQueue ++ [d] } :
          EngineState)).deck g with main := true } : DeckState).trackLoaded =
          ((({ s.updateDeck d (completeLoad info) with
          deckQueue := (s.updateDeck d (completeLoad info)).deckQueue ++ [d] } :
          EngineState)).deck g).trackLoaded from rfl]
      rw [hde, hs1loaded, hef]
    · rw [if_neg hef, hde, hs1loaded]
  have hTloading : ∀ e, ((markAsMain { s.updateDeck d (completeLoad info) with
      deckQueue := (s.updateDeck d (completeLoad info)).deckQueue ++ [d] } g
        true).deck e).isTrackLoading =
      if e = d then false else (s.deck e).isTrackLoading := by
    intro e
    rw [deck_markAsMain]
    by_cases hef : e = g
    · rw [if_pos hef]
      rw [show ({ (({ s.updateDeck d (completeLoad info) with
          deckQueue := (s.updateDeck d (completeLoad info)).deckQueue ++ [d] } :
          EngineState)).deck g with main := true } : DeckState).isTrackLoading =
          ((({ s.updateDeck d (completeLoad info) with
          deckQueue := (s.updateDeck d (completeLoad info)).deckQueue ++ [d] } :
          EngineState)).deck g).isTrackLoading from rfl]
      rw [hde, hs1loading, hef]
    · rw [if_neg hef, hde, hs1loading]
  have hTplaying : ∀ e, e ≠ d → ((markAsMain { s.updateDeck d (completeLoad info) with
      deckQueue := (s.updateDeck d (completeLoad info)).deckQueue ++ [d] } g
        true).deck e).playing = (s.deck e).playing := by
    intro e he
    rw [deck_markAsMain]
    by_cases hef : e = g
    · rw [if_pos hef]
      rw [show ({ (({ s.updateDeck d (completeLoad info) with
          deckQueue := (s.updateDeck d (completeLoad info)).deckQueue ++ [d] } :
          EngineState)).deck g with main := true } : DeckState).playing =
          ((({ s.updateDeck d (completeLoad info) with
          deckQueue := (s.updateDeck d (completeLoad info)).deckQueue ++ [d] } :
          EngineState)).deck g).playing from rfl]
      rw [hde, ← hef, hs1playing e he]
    · rw [if_neg hef, hde, hs1playing e he]
  have hTvol : ∀ e, e ≠ d → ((markAsMain { s.updateDeck d (completeLoad info) with
      deckQueue := (s.updateDeck d (completeLoad info)).deckQueue ++ [d] } g
        true).deck e).volume = (s.deck e).volume := by
    intro e he
    rw [deck_markAsMain]
    by_cases hef : e = g
    · rw [if_pos hef]
      rw [show ({ (({ s.updateDeck d (completeLoad info) with
          deckQueue := (s.updateDeck d (completeLoad info)).deckQueue ++ [d] } :
          EngineState)).deck g with main := true } : DeckState).volume =
          ((({ s.updateDeck d (completeLoad info) with
          deckQueue := (s.updateDeck d (completeLoad info)).deckQueue ++ [d] } :
          EngineState)).deck g).volume from rfl]
      rw [hde, ← hef, hs1vol e he]
    · rw [if_neg hef, hde, hs1vol e he]
  have hTlead : ∀ e, e ≠ d → ((markAsMain { s.updateDeck d (completeLoad info) with
      deckQueue := (s.updateDeck d (completeLoad info)).deckQueue ++ [d] } g
        true).deck e).leadingDuration = (s.deck e).leadingDuration := by
    intro e he
    rw [deck_markAsMain]
    by_cases hef : e = g
    · rw [if_pos hef]
      rw [show ({ (({ s.updateDeck d (completeLoad info) with
          deckQueue := (s.updateDeck d (completeLoad info)).deckQueue ++ [d] } :
          EngineState)).deck g with main := true } : DeckState).leadingDuration =
          ((({ s.updateDeck d (completeLoad info) with
          deckQueue := (s.updateDeck d (completeLoad info)).deckQueue ++ [d] } :
          EngineState)).deck g).leadingDuration from rfl]
      rw [hde, ← hef, hs1lead e he]
    · rw [if_neg hef, hde, hs1lead e he]
  have hTq : (markAsMain { s.updateDeck d (completeLoad info) with
      deckQueue := (s.updateDeck d (completeLoad info)).deckQueue ++ [d] } g true).deckQueue =
      s.deckQueue ++ [d] := by
    simp [markAsMain]
  refine ⟨?_, ?_, ?_, ?_, ?_, ?_, ?_, ?_, ?_⟩
  · intro e
    rw [hTmain, hTq, hhead]
    by_cases hef : e = g
    · simp [hef]
    · rw [if_neg hef]
      constructor
      · intro hm
        have h2 := (h.main_iff e).mp hm
        have h3 := head?_append_of_head? (d := d) h2
        rw [hhead] at h3
        exact absurd (Option.some.inj h3).symm hef
      · intro hx
        exact absurd (Option.some.inj hx).symm hef
  · intro e
    rw [hTloaded, hTq]
    by_cases he : e = d
    · simp [he]
    · rw [if_neg he, h.loaded_iff e]
      simp [he]
  · rw [hTq]
    rw [List.nodup_append]
    exact ⟨h.nodup, by simp, by
      intro a ha hb
      simp at hb
      subst hb
      exact hnotmem ha⟩
  · intro e
    rw [hTloaded, hTloading]
    by_cases he : e = d
    · simp [he]
    · rw [if_neg he, if_neg he]
      exact h.not_loaded_loading e
  · intro hx
    simp only [markAsMain, updateDeck_transitionState] at hx
    simp only [markAsMain, updateDeck_transitingDeck]
    exact h.transiting_none hx
  · intro hx
    simp only [markAsMain, updateDeck_transitionState] at hx
    obtain ⟨td, htd, hh⟩ := h.transiting_head hx
    refine ⟨td, ?_, ?_⟩
    · simp only [markAsMain, updateDeck_transitingDeck]
      exact htd
    · rw [hTq]
      exact head?_append_of_head? hh
  · simp only [markAsMain, updateDeck_forceFadingOut]
    exact h.ffo_nonneg
  · intro td hts htd hp
    simp only [markAsMain, updateDeck_transitionState] at hts
    simp only [markAsMain, updateDeck_transitingDeck] at htd
    have hcued : TransitionState.Cued.toNat ≤ s.transitionState.toNat := by
      rw [hts]; simp [TransitionState.toNat]
    obtain ⟨td2, htd2, hh2⟩ := h.transiting_head hcued
    rw [htd] at htd2
    have htdd : td ≠ d := by
      rintro rfl
      exact hnotmem (head?_mem (by rw [← Option.some.inj htd2] at hh2; exact hh2))
    rw [hTplaying td htdd] at hp
    rw [hTloading]
    by_cases ho : td.other = d
    · simp [ho]
    · rw [if_neg ho]
      exact h.no_reload_in_transit td hts htd hp
  · intro td hts htd hp hl hld
    simp only [markAsMain, updateDeck_transitionState] at hts
    simp only [markAsMain, updateDeck_transitingDeck] at htd
    have hcued : TransitionState.Cued.toNat ≤ s.transitionState.toNat := by
      rw [hts]; simp [TransitionState.toNat]
    obtain ⟨td2, htd2, hh2⟩ := h.transiting_head hcued
    rw [htd] at htd2
    have htdd : td ≠ d := by
      rintro rfl
      exact hnotmem (head?_mem (by rw [← Option.some.inj htd2] at hh2; exact hh2))
    rw [hTplaying td htdd] at hp
    by_cases ho : td.other = d
    · -- the incoming deck cannot have been loading during an active transit
      have := h.no_reload_in_transit td hts htd hp
      rw [ho] at this
      rw [hg] at this
      simp at this
    · rw [hTloaded] at hl
      rw [if_neg ho] at hl
      rw [hTlead td.other ho] at hld
      simp only [markAsMain, updateDeck_maxLeadingDuration] at hld
      rw [hTvol td.other ho]
      exact h.short_leading_unit_volume td hts htd hp hl hld

theorem inv_fadeOutMainDeck {s : EngineState} (h : Inv s) : Inv (fadeOutMainDeck s) := by
  unfold fadeOutMainDeck
  cases hh : s.deckQueue.head? with
  | none => exact h
  | some m =>
    dsimp only
    have h1 : Inv { s with forceFadingOut := s.forceFadingOut + 1 } := by
      refine inv_congr h (fun e => by cases e <;> rfl) rfl rfl rfl ?_ rfl
      have := h.ffo_nonneg
      simp only []
      omega
    by_cases hts : ({ s with forceFadingOut := s.forceFadingOut + 1 } :
        EngineState).transitionState = TransitionState.Transit
    · rw [if_pos hts]
      have hts2 : s.transitionState = TransitionState.Transit := hts
      have hcued : TransitionState.Cued.toNat ≤ s.transitionState.toNat := by
        rw [hts2]; simp [TransitionState.toNat]
      obtain ⟨td, htd, hh2⟩ := h.transiting_head hcued
      rw [hh] at hh2
      have htdm : td = m := (Option.some.inj hh2).symm ▸ rfl
      have hT : (({ s with forceFadingOut := s.forceFadingOut + 1 } :
          EngineState).updateDeck m unloadDeck).transitingDeck = some m := by
        simp only [updateDeck_transitingDeck]
        show s.transitingDeck = some m
        rw [htd, htdm]
      have h2 : Inv (deckUnloaded (({ s with forceFadingOut := s.forceFadingOut + 1 } :
          EngineState).updateDeck m unloadDeck) m) := inv_deckUnloaded_step h1 m
      obtain ⟨hI, hN⟩ := deckUnloaded_idle hT
      refine inv_congr h2 (fun e => by cases e <;> rfl) rfl hI.symm rfl h2.ffo_nonneg rfl
    · rw [if_neg hts]
      exact h1

@[simp] theorem deck_set_ts (s : EngineState) (a : TransitionState) (e : DeckId) :
    ({ s with transitionState := a } : EngineState).deck e = s.deck e := by
  cases e <;> rfl

@[simp] theorem deck_set_ts_td (s : EngineState) (a : TransitionState) (b : Option DeckId)
    (e : DeckId) :
    ({ s with
        transitionState := a
        transitingDeck := b } : EngineState).deck e = s.deck e := by
  cases e <;> rfl

theorem inv_set_cueing {s : EngineState} (h : Inv s)
    (hidle : s.transitionState = .Idle) :
    Inv { s with transitionState := .Cueing } := by
  refine ⟨?_, ?_, ?_, ?_, ?_, ?_, ?_, ?_, ?_⟩
  · intro e; simp only [deck_set_ts]; exact h.main_iff e
  · intro e; simp only [deck_set_ts]; exact h.loaded_iff e
  · exact h.nodup
  · intro e; simp only [deck_set_ts]; exact h.not_loaded_loading e
  · intro _
    exact h.transiting_none (by rw [hidle]; simp [TransitionState.toNat])
  · intro hx
    simp [TransitionState.toNat] at hx
  · exact h.ffo_nonneg
  · intro td hts
    simp at hts
  · intro td hts
    simp at hts

theorem inv_set_cued {s : EngineState} (h : Inv s) {sender : DeckId}
    (hmain : (s.deck sender).main = true) :
    Inv { s with
          transitionState := .Cued
          transitingDeck := some sender } := by
  refine ⟨?_, ?_, ?_, ?_, ?_, ?_, ?_, ?_, ?_⟩
  · intro e; simp only [deck_set_ts_td]; exact h.main_iff e
  · intro e; simp only [deck_set_ts_td]; exact h.loaded_iff e
  · exact h.nodup
  · intro e; simp only [deck_set_ts_td]; exact h.not_loaded_loading e
  · intro hx
    simp [TransitionState.toNat] at hx
  · intro _
    exact ⟨sender, rfl, (h.main_iff sender).mp hmain⟩
  · exact h.ffo_nonneg
  · intro td hts
    simp at hts
  · intro td hts
    simp at hts

theorem inv_cuePhase {s : EngineState} (h : Inv s) {sender : DeckId}
    (hmain : (s.deck sender).main = true) (position cuePoint preCuePoint : ℚ) :
    Inv (cuePhase s sender position cuePoint preCuePoint).2 := by
  unfold cuePhase
  by_cases h2 : s.transitionState.toNat < TransitionState.Cued.toNat
  case neg => rw [if_neg h2]; exact h
  case pos =>
    rw [if_pos h2]
    dsimp only
    by_cases hpre : s.transitionState = .Idle ∧ position > preCuePoint
    all_goals (first
      | rw [if_pos hpre]
      | rw [if_neg hpre])
    · have hInv1 : Inv { s with transitionState := TransitionState.Cueing } :=
        inv_set_cueing h hpre.1
      have hmain1 : (({ s with transitionState := TransitionState.Cueing } :
          EngineState).deck sender).main = true := by
        simp only [deck_set_ts]; exact hmain
      by_cases hcue : position > cuePoint
      · rw [if_pos hcue]
        have hInv2 : Inv (loadNextTrack { s with transitionState := TransitionState.Cueing }
            (some sender) false).2 :=
          inv_loadNextTrack hInv1 _ _ (Or.inl (by simp))
        have hmain2 : ((loadNextTrack { s with transitionState := TransitionState.Cueing }
            (some sender) false).2.deck sender).main = true := by
          rw [(loadNextTrack_deck_frame _ (some sender) false
            hInv1.not_loaded_loading sender).1]
          exact hmain1
        split_ifs with h3
        · exact hInv2
        · exact inv_set_cued hInv2 hmain2
      · rw [if_neg hcue]
        exact hInv1
    · by_cases hcue : position > cuePoint
      · rw [if_pos hcue]
        have hInv2 : Inv (loadNextTrack s (some sender) false).2 :=
          inv_loadNextTrack h _ _ (Or.inl (by
            intro hx
            rw [hx] at h2
            simp [TransitionState.toNat] at h2))
        have hmain2 : ((loadNextTrack s (some sender) false).2.deck sender).main = true := by
          rw [(loadNextTrack_deck_frame _ (some sender) false h.not_loaded_loading sender).1]
          exact hmain
        split_ifs with h3
        · exact hInv2
        · exact inv_set_cued hInv2 hmain2
      · rw [if_neg hcue]
        exact h

theorem loadNextTrack_loaded_untouched {s : EngineState} {c : Option DeckId} (p : Bool)
    (hnl : ∀ e, ¬((s.deck e).trackLoaded = true ∧ (s.deck e).isTrackLoading = true))
    (e : DeckId) (hl : (s.deck e).trackLoaded = true) :
    (loadNextTrack s c p).2.deck e = s.deck e := by
  cases hga : getAnotherDeck s c with
  | none => rw [loadNextTrack_none p hga]
  | some d =>
    by_cases he : e = d
    · subst he
      rw [loadNextTrack_deck_target p hga]
      have hnload : (s.deck e).isTrackLoading = false := by
        by_cases hc : (s.deck e).isTrackLoading
        · exact absurd ⟨hl, hc⟩ (hnl e)
        · simpa using hc
      have htarget : loadTarget s e = s.deck e := by
        unfold loadTarget
        rw [hnload]
        simp
      rw [htarget]
      exact (fetchLoop_loaded p (s.deck e) s.queue hl).2
    · exact loadNextTrack_deck_other p hga e he

theorem cuePhase_deckQueue (s : EngineState) (sender : DeckId)
    (position cuePoint preCuePoint : ℚ) :
    (cuePhase s sender position cuePoint preCuePoint).2.deckQueue = s.deckQueue := by
  have hload : ∀ u : EngineState,
      (loadNextTrack u (some sender) false).2.deckQueue = u.deckQueue :=
    fun u => (loadNextTrack_engine_frame u (some sender) false).1
  unfold cuePhase
  split_ifs <;> simp [hload]
  all_goals split_ifs <;> simp [hload]

theorem cuePhase_main {s : EngineState} (sender : DeckId)
    (position cuePoint preCuePoint : ℚ)
    (hnl : ∀ e, ¬((s.deck e).trackLoaded = true ∧ (s.deck e).isTrackLoading = true)) :
    ∀ e, ((cuePhase s sender position cuePoint preCuePoint).2.deck e).main =
      (s.deck e).main := by
  intro e
  have hnl2 : ∀ e2, ¬((({ s with transitionState := TransitionState.Cueing } :
      EngineState).deck e2).trackLoaded = true ∧
      (({ s with transitionState := TransitionState.Cueing } :
      EngineState).deck e2).isTrackLoading = true) := by
    intro e2
    simp only [deck_set_ts]
    exact hnl e2
  have hf1 := (loadNextTrack_deck_frame { s with transitionState := TransitionState.Cueing }
    (some sender) false hnl2 e).1
  have hf2 := (loadNextTrack_deck_frame s (some sender) false hnl e).1
  unfold cuePhase
  split_ifs <;> simp [deck_set_ts, hf1, hf2]
  all_goals split_ifs <;> simp [deck_set_ts, hf1, hf2]

theorem cuePhase_other_loaded_untouched {s : EngineState} (sender : DeckId)
    (position cuePoint preCuePoint : ℚ)
    (hnl : ∀ e, ¬((s.deck e).trackLoaded = true ∧ (s.deck e).isTrackLoading = true))
    (e : DeckId)
    (hl : ((cuePhase s sender position cuePoint preCuePoint).2.deck e).trackLoaded = true) :
    (cuePhase s sender position cuePoint preCuePoint).2.deck e = s.deck e := by
  have hnl2 : ∀ e2, ¬((({ s with transitionState := TransitionState.Cueing } :
      EngineState).deck e2).trackLoaded = true ∧
      (({ s with transitionState := TransitionState.Cueing } :
      EngineState).deck e2).isTrackLoading = true) := by
    intro e2
    simp only [deck_set_ts]
    exact hnl e2
  unfold cuePhase at hl ⊢
  by_cases h2 : s.transitionState.toNat < TransitionState.Cued.toNat
  case neg =>
    rw [if_neg h2] at hl ⊢
  case pos =>
    rw [if_pos h2] at hl ⊢
    dsimp only at hl ⊢
    by_cases hpre : s.transitionState = .Idle ∧ position > preCuePoint
    · rw [if_pos hpre] at hl ⊢
      by_cases hcue : position > cuePoint
      · rw [if_pos hcue] at hl ⊢
        by_cases hb : (!(loadNextTrack { s with transitionState := TransitionState.Cueing }
            (some sender) false).1 &&
            decide ((loadNextTrack { s with transitionState := TransitionState.Cueing }
              (some sender) false).2.forceFadingOut ≤ 0)) = true
        · rw [if_pos hb] at hl ⊢
          have h5 : ((({ s with transitionState := TransitionState.Cueing } :
              EngineState)).deck e).trackLoaded = true := by
            rw [← (loadNextTrack_deck_frame _ (some sender) false hnl2 e).2.1]
            exact hl
          have h6 := loadNextTrack_loaded_untouched (c := some sender) false hnl2 e h5
          show (loadNextTrack { s with transitionState := TransitionState.Cueing }
            (some sender) false).2.deck e = s.deck e
          rw [h6]
          simp only [deck_set_ts]
        · rw [if_neg hb] at hl ⊢
          simp only [deck_set_ts_td] at hl ⊢
          have h5 : ((({ s with transitionState := TransitionState.Cueing } :
              EngineState)).deck e).trackLoaded = true := by
            rw [← (loadNextTrack_deck_frame _ (some sender) false hnl2 e).2.1]
            exact hl
          have h6 := loadNextTrack_loaded_untouched (c := some sender) false hnl2 e h5
          rw [h6]
          simp only [deck_set_ts]
      · rw [if_neg hcue] at hl ⊢
        simp only [deck_set_ts]
    · rw [if_neg hpre] at hl ⊢
      by_cases hcue : position > cuePoint
      · rw [if_pos hcue] at hl ⊢
        by_cases hb : (!(loadNextTrack s (some sender) false).1 &&
            decide ((loadNextTrack s
              (some sender) false).2.forceFadingOut ≤ 0)) = true
        · rw [if_pos hb] at hl ⊢
          have h5 : ((s.deck e)).trackLoaded = true := by
            rw [← (loadNextTrack_deck_frame _ (some sender) false hnl e).2.1]
            exact hl
          exact loadNextTrack_loaded_untouched (c := some sender) false hnl e h5
        · rw [if_neg hb] at hl ⊢
          simp only [deck_set_ts_td] at hl ⊢
          have h5 : ((s.deck e)).trackLoaded = true := by
            rw [← (loadNextTrack_deck_frame _ (some sender) false hnl e).2.1]
            exact hl
          exact loadNextTrack_loaded_untouched (c := some sender) false hnl e h5
      · rw [if_neg hcue] at hl ⊢

@[simp] theorem updateDeck_updateDeck (s : EngineState) (d : DeckId)
    (f g : DeckState → DeckState) :
    (s.updateDeck d f).updateDeck d g = s.updateDeck d (fun ds => g (f ds)) := by
  cases d <;> rfl

/-- The Transit-entry step of Medley::deckPosition preserves the
invariant: from Cued with a loaded incoming deck, any combination of
volume, seek and start updates to the incoming deck keeps the
bookkeeping intact as long as a short-leading incoming deck ends at
unit volume. -/
theorem inv_transit_entry {s : EngineState} (h : Inv s) {sender : DeckId}
    (hmain : (s.deck sender).main = true) (hcued : s.transitionState = .Cued)
    (hloaded : (s.deck sender.other).trackLoaded = true)
    (F : DeckState → DeckState)
    (hFmain : ∀ ds, (F ds).main = ds.main)
    (hFloaded : ∀ ds, (F ds).trackLoaded = ds.trackLoaded)
    (hFloading : ∀ ds, (F ds).isTrackLoading = ds.isTrackLoading)
    (hFlead : ∀ ds, (F ds).leadingDuration = ds.leadingDuration)
    (hvol : (s.deck sender.other).leadingDuration < s.maxLeadingDuration →
      (F (s.deck sender.other)).volume = FVal.num 1) :
    Inv (({ s with transitionState := TransitionState.Transit } :
      EngineState).updateDeck sender.other F) := by
  have hhead : s.deckQueue.head? = some sender := (h.main_iff sender).mp hmain
  have hdm : ∀ e, ((({ s with transitionState := TransitionState.Transit } :
      EngineState).updateDeck sender.other F).deck e).main = (s.deck e).main := by
    intro e
    by_cases he : e = sender.other
    · subst he; simp [hFmain]
    · simp [he]
  have hdl : ∀ e, ((({ s with transitionState := TransitionState.Transit } :
      EngineState).updateDeck sender.other F).deck e).trackLoaded =
      (s.deck e).trackLoaded := by
    intro e
    by_cases he : e = sender.other
    · subst he; simp [hFloaded]
    · simp [he]
  have hdg : ∀ e, ((({ s with transitionState := TransitionState.Transit } :
      EngineState).updateDeck sender.other F).deck e).isTrackLoading =
      (s.deck e).isTrackLoading := by
    intro e
    by_cases he : e = sender.other
    · subst he; simp [hFloading]
    · simp [he]
  have hdd : ∀ e, ((({ s with transitionState := TransitionState.Transit } :
      EngineState).updateDeck sender.other F).deck e).leadingDuration =
      (s.deck e).leadingDuration := by
    intro e
    by_cases he : e = sender.other
    · subst he; simp [hFlead]
    · simp [he]
  refine ⟨?_, ?_, ?_, ?_, ?_, ?_, ?_, ?_, ?_⟩
  · intro e; rw [hdm]; simpa using h.main_iff e
  · intro e; rw [hdl]; simpa using h.loaded_iff e
  · simpa using h.nodup
  · intro e; rw [hdl, hdg]; exact h.not_loaded_loading e
  · intro hx
    simp [TransitionState.toNat] at hx
  · intro _
    obtain ⟨td2, htd2, hh2⟩ := h.transiting_head (by rw [hcued])
    have h5 : td2 = sender := by
      rw [hhead] at hh2
      exact (Option.some.inj hh2).symm
    refine ⟨sender, ?_, by simpa using hhead⟩
    simp only [updateDeck_transitingDeck]
    show s.transitingDeck = some sender
    rw [htd2, h5]
  · simpa using h.ffo_nonneg
  · intro td hts htd hp
    simp only [updateDeck_transitingDeck] at htd
    have htds : sender = td := by
      obtain ⟨td2, htd2, hh2⟩ := h.transiting_head (by rw [hcued])
      have h5 : td = td2 := by
        rw [show s.transitingDeck = ({ s with
            transitionState := TransitionState.Transit } : EngineState).transitingDeck
          from rfl, htd] at htd2
        exact Option.some.inj htd2
      rw [hhead] at hh2
      exact (Option.some.inj hh2).trans h5.symm
    subst htds
    rw [hdg]
    have := h.not_loaded_loading sender.other
    by_cases hc : (s.deck sender.other).isTrackLoading
    · exact absurd ⟨hloaded, by simpa using hc⟩ this
    · simpa using hc
  · intro td hts htd hp hl hld
    simp only [updateDeck_transitingDeck] at htd
    have htds : sender = td := by
      obtain ⟨td2, htd2, hh2⟩ := h.transiting_head (by rw [hcued])
      have h5 : td = td2 := by
        rw [show s.transitingDeck = ({ s with
            transitionState := TransitionState.Transit } : EngineState).transitingDeck
          from rfl, htd] at htd2
        exact Option.some.inj htd2
      rw [hhead] at hh2
      exact (Option.some.inj hh2).trans h5.symm
    subst htds
    rw [hdd] at hld
    simp only [updateDeck_maxLeadingDuration] at hld
    have hv := hvol (by simpa using hld)
    simp only [deck_updateDeck, if_pos rfl]
    simp only [deck_set_ts]
    exact hv

/-- Updating only the volume of the deck opposite the main deck keeps
the invariant whenever that deck cannot be a short-leading incoming
deck of an active transit. -/
theorem inv_update_vol_other {s : EngineState} (h : Inv s) {sender : DeckId}
    (hmain : (s.deck sender).main = true) (V : FVal)
    (hcontr : s.transitionState = .Transit → (s.deck sender.other).trackLoaded = true →
      ¬((s.deck sender.other).leadingDuration < s.maxLeadingDuration)) :
    Inv (s.updateDeck sender.other (fun ds => { ds with volume := V })) := by
  have hhead : s.deckQueue.head? = some sender := (h.main_iff sender).mp hmain
  refine ⟨?_, ?_, ?_, ?_, ?_, ?_, ?_, ?_, ?_⟩
  · intro e
    by_cases he : e = sender.other
    · rw [he]; simpa using h.main_iff sender.other
    · simp [he]; simpa using h.main_iff e
  · intro e
    by_cases he : e = sender.other
    · rw [he]; simpa using h.loaded_iff sender.other
    · simp [he]; simpa using h.loaded_iff e
  · simpa using h.nodup
  · intro e
    by_cases he : e = sender.other
    · rw [he]
      rw [show ((s.updateDeck sender.other (fun ds =>
          { ds with volume := V })).deck sender.other).trackLoaded =
        (s.deck sender.other).trackLoaded from by simp]
      rw [show ((s.updateDeck sender.other (fun ds =>
          { ds with volume := V })).deck sender.other).isTrackLoading =
        (s.deck sender.other).isTrackLoading from by simp]
      exact h.not_loaded_loading sender.other
    · rw [deck_updateDeck_ne s _ he]
      exact h.not_loaded_loading e
  · simpa using h.transiting_none
  · simpa using h.transiting_head
  · simpa using h.ffo_nonneg
  · intro td hts htd hp
    simp only [updateDeck_transitionState] at hts
    simp only [updateDeck_transitingDeck] at htd
    have htds : sender = td := by
      obtain ⟨td2, htd2, hh2⟩ := h.transiting_head (by rw [hts]; decide)
      have h4 : td = td2 := by rw [htd] at htd2; exact Option.some.inj htd2
      rw [hhead] at hh2
      exact (Option.some.inj hh2).trans h4.symm
    subst htds
    simp only [deck_updateDeck, if_pos rfl]
    have hp2 : (s.deck sender).playing = true := by
      have hne : sender ≠ sender.other := fun hx => DeckId.other_ne sender hx.symm
      rw [deck_updateDeck_ne s _ hne] at hp
      exact hp
    have := h.no_reload_in_transit sender hts htd hp2
    exact this
  · intro td hts htd hp hl hld
    simp only [updateDeck_transitionState] at hts
    simp only [updateDeck_transitingDeck] at htd
    have htds : sender = td := by
      obtain ⟨td2, htd2, hh2⟩ := h.transiting_head (by rw [hts]; decide)
      have h4 : td = td2 := by rw [htd] at htd2; exact Option.some.inj htd2
      rw [hhead] at hh2
      exact (Option.some.inj hh2).trans h4.symm
    subst htds
    simp only [deck_updateDeck, if_pos rfl] at hl hld
    simp only [updateDeck_maxLeadingDuration] at hld
    exact absurd (by simpa using hld) (hcontr hts (by simpa using hl))

/-- Updating only the volume of the main deck itself keeps the
invariant. -/
theorem inv_update_vol_sender {s : EngineState} (h : Inv s) {sender : DeckId}
    (hmain : (s.deck sender).main = true) (V : FVal) :
    Inv (s.updateDeck sender (fun ds => { ds with volume := V })) := by
  have hhead : s.deckQueue.head? = some sender := (h.main_iff sender).mp hmain
  refine ⟨?_, ?_, ?_, ?_, ?_, ?_, ?_, ?_, ?_⟩
  · intro e
    by_cases he : e = sender
    · rw [he]; simpa using h.main_iff sender
    · simp [he]; simpa using h.main_iff e
  · intro e
    by_cases he : e = sender
    · rw [he]; simpa using h.loaded_iff sender
    · simp [he]; simpa using h.loaded_iff e
  · simpa using h.nodup
  · intro e
    by_cases he : e = sender
    · rw [he]
      rw [show ((s.updateDeck sender (fun ds =>
          { ds with volume := V })).deck sender).trackLoaded =
        (s.deck sender).trackLoaded from by simp]
      rw [show ((s.updateDeck sender (fun ds =>
          { ds with volume := V })).deck sender).isTrackLoading =
        (s.deck sender).isTrackLoading from by simp]
      exact h.not_loaded_loading sender
    · rw [deck_updateDeck_ne s _ he]
      exact h.not_loaded_loading e
  · simpa using h.transiting_none
  · simpa using h.transiting_head
  · simpa using h.ffo_nonneg
  · intro td hts htd hp
    simp only [updateDeck_transitionState] at hts
    simp only [updateDeck_transitingDeck] at htd
    have htds : sender = td := by
      obtain ⟨td2, htd2, hh2⟩ := h.transiting_head (by rw [hts]; decide)
      have h4 : td = td2 := by rw [htd] at htd2; exact Option.some.inj htd2
      rw [hhead] at hh2
      exact (Option.some.inj hh2).trans h4.symm
    subst htds
    have hp2 : (s.deck sender).playing = true := by
      simp only [deck_updateDeck, if_pos rfl] at hp
      exact hp
    have hne : sender.other ≠ sender := DeckId.other_ne sender
    rw [deck_updateDeck_ne s _ hne]
    exact h.no_reload_in_transit sender hts htd hp2
  · intro td hts htd hp hl hld
    simp only [updateDeck_transitionState] at hts
    simp only [updateDeck_transitingDeck] at htd
    have htds : sender = td := by
      obtain ⟨td2, htd2, hh2⟩ := h.transiting_head (by rw [hts]; decide)
      have h4 : td = td2 := by rw [htd] at htd2; exact Option.some.inj htd2
      rw [hhead] at hh2
      exact (Option.some.inj hh2).trans h4.symm
    subst htds
    have hne : sender.other ≠ sender := DeckId.other_ne sender
    rw [deck_updateDeck_ne s _ hne] at hl hld ⊢
    simp only [updateDeck_maxLeadingDuration] at hld
    have hp2 : (s.deck sender).playing = true := by
      simp only [deck_updateDeck, if_pos rfl] at hp
      exact hp
    exact h.short_leading_unit_volume sender hts htd hp2 hl hld

/-- The transit block never changes any deck's main flag. -/
theorem transitPhase_main (rpow : ℚ → ℚ → ℚ) (s : EngineState) (sender : DeckId)
    (position transitionStartPos leadingDuration : ℚ) (e : DeckId) :
    ((transitPhase rpow s sender position transitionStartPos leadingDuration).deck e).main =
      (s.deck e).main := by
  unfold transitPhase
  dsimp only
  split_ifs <;> by_cases he : e = sender.other <;>
    simp [he, deck_set_ts]

/-- The transit block of Medley::deckPosition preserves the invariant,
as long as the captured leading duration agrees with the incoming
deck's live one whenever that deck is loaded. -/
theorem inv_transitPhase {s : EngineState} (h : Inv s) {sender : DeckId}
    (hmain : (s.deck sender).main = true) (rpow : ℚ → ℚ → ℚ)
    (position transitionStartPos : ℚ) {leadingDuration : ℚ}
    (hlead : (s.deck sender.other).trackLoaded = true →
      leadingDuration = (s.deck sender.other).leadingDuration) :
    Inv (transitPhase rpow s sender position transitionStartPos leadingDuration) := by
  unfold transitPhase
  by_cases hpos : position > transitionStartPos - leadingDuration
  case neg => rw [if_neg hpos]; exact h
  case pos =>
    rw [if_pos hpos]
    dsimp only
    by_cases hentry : s.transitionState = TransitionState.Cued ∧
        (s.deck sender.other).trackLoaded = true
    · rw [if_pos hentry]
      split_ifs with hff hfa hfb
      · have hge : leadingDuration ≥ s.maxLeadingDuration := by
          have h2 := hfa.2
          simpa using h2
        simp only [updateDeck_updateDeck]
        refine inv_transit_entry h hmain hentry.1 hentry.2 _ (fun ds => rfl) (fun ds => rfl)
          (fun ds => rfl) (fun ds => rfl) ?_
        intro hlt
        rw [hlead hentry.2] at hge
        exact absurd hlt (not_lt.mpr hge)
      · simp only [updateDeck_updateDeck]
        exact inv_transit_entry h hmain hentry.1 hentry.2 _ (fun ds => rfl) (fun ds => rfl)
          (fun ds => rfl) (fun ds => rfl) (fun h2 => rfl)
      · have hge : leadingDuration ≥ s.maxLeadingDuration := by
          have h2 := hfb.2
          simpa using h2
        simp only [updateDeck_updateDeck]
        refine inv_transit_entry h hmain hentry.1 hentry.2 _ (fun ds => rfl) (fun ds => rfl)
          (fun ds => rfl) (fun ds => rfl) ?_
        intro hlt
        rw [hlead hentry.2] at hge
        exact absurd hlt (not_lt.mpr hge)
      · simp only [updateDeck_updateDeck]
        exact inv_transit_entry h hmain hentry.1 hentry.2 _ (fun ds => rfl) (fun ds => rfl)
          (fun ds => rfl) (fun ds => rfl) (fun h2 => rfl)
    · rw [if_neg hentry]
      split_ifs with hfa
      · refine inv_update_vol_other h hmain _ ?_
        intro hts hl
        have hge : leadingDuration ≥ s.maxLeadingDuration := hfa.2
        rw [hlead hl] at hge
        exact not_lt.mpr hge
      · exact h

/-- The fade-out block of Medley::deckPosition preserves the
invariant. -/
theorem inv_fadeOutPhase {s : EngineState} (h : Inv s) {sender : DeckId}
    (hmain : (s.deck sender).main = true) (rpow : ℚ → ℚ → ℚ)
    (position transitionStartPos transitionEndPos : ℚ) :
    Inv (fadeOutPhase rpow s sender position transitionStartPos transitionEndPos) := by
  unfold fadeOutPhase
  by_cases hpos : position ≥ transitionStartPos
  case neg => rw [if_neg hpos]; exact h
  case pos =>
    rw [if_pos hpos]
    dsimp only
    split_ifs with hdur hstop hstop2
    · refine inv_update_passive (inv_update_vol_sender h hmain _) sender _ rfl rfl rfl rfl
        ?_ rfl
      simp
    · exact inv_update_vol_sender h hmain _
    · exact inv_update_passive h sender _ rfl rfl rfl rfl (by simp) rfl
    · exact h

/-- Medley::deckPosition preserves the invariant. -/
theorem inv_deckPosition {s : EngineState} (h : Inv s) (rpow : ℚ → ℚ → ℚ)
    (sender : DeckId) (position : ℚ) :
    Inv (deckPosition rpow s sender position) := by
  unfold deckPosition
  by_cases hm : (s.deck sender).main = true
  · rw [if_pos hm]
    dsimp only
    have hc : Inv (cuePhase s sender position (s.deck sender).transitionCuePosition
        (s.deck sender).transitionPreCuePosition).2 :=
      inv_cuePhase h hm position _ _
    by_cases hr : (cuePhase s sender position (s.deck sender).transitionCuePosition
        (s.deck sender).transitionPreCuePosition).1 = true
    · rw [if_pos hr]
      exact hc
    · rw [if_neg hr]
      have hmain2 : ((cuePhase s sender position (s.deck sender).transitionCuePosition
          (s.deck sender).transitionPreCuePosition).2.deck sender).main = true := by
        rw [cuePhase_main sender position (s.deck sender).transitionCuePosition
          (s.deck sender).transitionPreCuePosition h.not_loaded_loading sender]
        exact hm
      have hlead2 : ((cuePhase s sender position (s.deck sender).transitionCuePosition
          (s.deck sender).transitionPreCuePosition).2.deck sender.other).trackLoaded = true →
          (s.deck sender.other).leadingDuration =
          ((cuePhase s sender position (s.deck sender).transitionCuePosition
          (s.deck sender).transitionPreCuePosition).2.deck sender.other).leadingDuration := by
        intro hl
        rw [cuePhase_other_loaded_untouched sender position (s.deck sender).transitionCuePosition
          (s.deck sender).transitionPreCuePosition h.not_loaded_loading sender.other hl]
      have ht : Inv (transitPhase rpow (cuePhase s sender position
          (s.deck sender).transitionCuePosition
          (s.deck sender).transitionPreCuePosition).2 sender position
          (s.deck sender).transitionStartPosition (s.deck sender.other).leadingDuration) :=
        inv_transitPhase hc hmain2 rpow position _ hlead2
      have hmain3 : ((transitPhase rpow (cuePhase s sender position
          (s.deck sender).transitionCuePosition
          (s.deck sender).transitionPreCuePosition).2 sender position
          (s.deck sender).transitionStartPosition
          (s.deck sender.other).leadingDuration).deck sender).main = true := by
        rw [transitPhase_main]
        exact hmain2
      exact inv_fadeOutPhase ht hmain3 rpow position _ _
  · rw [if_neg hm]
    cases hh : s.deckQueue.head? with
    | none => exact h
    | some f =>
      dsimp only
      by_cases hf : f = sender
      · exact absurd ((h.main_iff sender).mpr (hf ▸ hh)) hm
      · rw [if_neg hf]
        exact h

/-- Every engine step preserves the invariant. -/
theorem inv_estep {rpow : ℚ → ℚ → ℚ} {s s' : EngineState} {l : Label}
    (h : Inv s) (hs : EStep rpow s l s') : Inv s' := by
  cases hs with
  | stepEnqueue t => exact inv_enqueue h t
  | stepLoaded d info hld => exact inv_deckLoaded_step h d info hld
  | stepUnloaded d hld => exact inv_deckUnloaded_step h d
  | stepPosition d pos hp => exact inv_deckPosition h rpow d pos
  | stepFinished d hp => exact inv_finished h d
  | stepPlay => exact inv_play h
  | stepStop => exact inv_stop h
  | stepFadeOut => exact inv_fadeOutMainDeck h

/-- The invariant holds in every reachable engine state. -/
theorem reachable_inv {rpow : ℚ → ℚ → ℚ} {s : EngineState}
    (h : Reachable rpow s) : Inv s := by
  induction h with
  | init fc ff mld mtt => exact inv_initState fc ff mld mtt
  | step hr hs ih => exact inv_estep ih hs

/-- The fade-out block never changes the transition state. -/
theorem fadeOutPhase_ts (rpow : ℚ → ℚ → ℚ) (s : EngineState) (sender : DeckId)
    (position transitionStartPos transitionEndPos : ℚ) :
    (fadeOutPhase rpow s sender position transitionStartPos
      transitionEndPos).transitionState = s.transitionState := by
  unfold fadeOutPhase
  dsimp only
  split_ifs <;> simp

/-- The transit block never resets the transition state to Idle. -/
theorem transitPhase_ts_ne_idle {s : EngineState} (hne : s.transitionState ≠ .Idle)
    (rpow : ℚ → ℚ → ℚ) (sender : DeckId) (position transitionStartPos leadingDuration : ℚ) :
    (transitPhase rpow s sender position transitionStartPos
      leadingDuration).transitionState ≠ .Idle := by
  unfold transitPhase
  dsimp only
  split_ifs <;> simp_all

/-- The cue block never resets the transition state to Idle. -/
theorem cuePhase_ts_ne_idle {s : EngineState} (hne : s.transitionState ≠ .Idle)
    (sender : DeckId) (position cuePoint preCuePoint : ℚ) :
    (cuePhase s sender position cuePoint preCuePoint).2.transitionState ≠ .Idle := by
  have hf1 : ∀ u : EngineState,
      (loadNextTrack u (some sender) false).2.transitionState = u.transitionState :=
    fun u => (loadNextTrack_engine_frame u (some sender) false).2.1
  unfold cuePhase
  split_ifs <;> simp_all [hf1]
  all_goals split_ifs <;> simp_all [hf1]

/-- Leaving Idle past the pre-cue point: after the cue block the state
is never Idle again, whichever way the cue decision went. -/
theorem cuePhase_precue_ts {s : EngineState} (hidle : s.transitionState = .Idle)
    (sender : DeckId) {position preCuePoint : ℚ} (cuePoint : ℚ)
    (hpre : position > preCuePoint) :
    (cuePhase s sender position cuePoint preCuePoint).2.transitionState ≠ .Idle := by
  have hf1 : ∀ u : EngineState,
      (loadNextTrack u (some sender) false).2.transitionState = u.transitionState :=
    fun u => (loadNextTrack_engine_frame u (some sender) false).2.1
  unfold cuePhase
  rw [if_pos (by rw [hidle]; decide)]
  dsimp only
  rw [if_pos (show s.transitionState = TransitionState.Idle ∧ position > preCuePoint from
    ⟨hidle, hpre⟩)]
  by_cases hcue : position > cuePoint
  · rw [if_pos hcue]
    split_ifs with hb <;> simp [hf1]
  · rw [if_neg hcue]
    simp

/-- Medley::deckPosition never resets the transition state to Idle. -/
theorem deckPosition_ts_ne_idle {s : EngineState} (hne : s.transitionState ≠ .Idle)
    (rpow : ℚ → ℚ → ℚ) (sender : DeckId) (position : ℚ) :
    (deckPosition rpow s sender position).transitionState ≠ .Idle := by
  unfold deckPosition
  by_cases hm : (s.deck sender).main = true
  · rw [if_pos hm]
    dsimp only
    have h1 := cuePhase_ts_ne_idle hne sender position
      (s.deck sender).transitionCuePosition (s.deck sender).transitionPreCuePosition
    by_cases hr : (cuePhase s sender position (s.deck sender).transitionCuePosition
        (s.deck sender).transitionPreCuePosition).1 = true
    · rw [if_pos hr]
      exact h1
    · rw [if_neg hr]
      rw [fadeOutPhase_ts]
      exact transitPhase_ts_ne_idle h1 rpow sender position
        (s.deck sender).transitionStartPosition (s.deck sender.other).leadingDuration
  · rw [if_neg hm]
    cases hh : s.deckQueue.head? with
    | none => exact hne
    | some f =>
      dsimp only
      split_ifs with hf
      · simpa [markAsMain] using hne
      · exact hne

/-- Medley::deckLoaded never changes the transition state. -/
theorem deckLoaded_ts (s : EngineState) (d : DeckId) :
    (deckLoaded s d).transitionState = s.transitionState := by
  unfold deckLoaded markFrontMain
  split <;> simp [markAsMain]

/-- Medley::play never changes the transition state. -/
theorem play_ts (s : EngineState) :
    (Medley.play s).transitionState = s.transitionState := by
  unfold Medley.play
  dsimp only
  split_ifs with h1
  · simpa using (loadNextTrack_engine_frame s none true).2.1
  · rfl

/-- Medley::deckUnloaded for a deck that is not the transiting one
never changes the transition state. -/
theorem deckUnloaded_ts_of_not_transiting {s : EngineState} {d : DeckId}
    (h : s.transitingDeck ≠ some d) :
    (deckUnloaded s d).transitionState = s.transitionState := by
  unfold deckUnloaded deckUnloadedCore
  rw [(recoverPlayback_frame _).1, (deckUnloadedQueue_frame _ _).1]
  unfold deckUnloadedTransit
  rw [if_neg h]

/-- The deck-queue part of Medley::deckUnloaded only touches main
flags, never a playing flag. -/
theorem deckUnloadedQueue_playing (s : EngineState) (d e : DeckId) :
    ((deckUnloadedQueue s d).deck e).playing = (s.deck e).playing := by
  unfold deckUnloadedQueue markFrontMain markAsMain
  dsimp only
  split_ifs with h1
  · cases d <;> cases e <;> simp [EngineState.updateDeck, EngineState.deck]
  · split
    · rename_i f hf
      cases d <;> cases e <;> cases f <;>
        simp [EngineState.updateDeck, EngineState.deck]
    · cases d <;> cases e <;> simp [EngineState.updateDeck, EngineState.deck]

/-- A deck known to be playing makes isDeckPlaying true. -/
theorem isDeckPlaying_of_deck {s : EngineState} {e : DeckId}
    (h : (s.deck e).playing = true) : isDeckPlaying s = true := by
  cases e <;> simp only [deck_at_deck1, deck_at_deck2] at h <;>
    simp [isDeckPlaying, h]

/-- The recovery path of Medley::deckUnloaded does nothing while some
deck is playing. -/
theorem recoverPlayback_of_playing {s : EngineState}
    (h : isDeckPlaying s = true) : recoverPlayback s = s := by
  unfold recoverPlayback
  rw [if_neg (by simp [h])]

theorem wS2_eval : wS2 =
    { deck1 := { initDeck with isTrackLoading := true, pendingPlay := true },
      deck2 := initDeck, deckQueue := [],
      transitionState := .Idle, transitingDeck := none, forceFadingOut := 0,
      keepPlaying := true, queue := [], fadingCurve := 0, fadingFactor := 0,
      maxLeadingDuration := 10, maxTransitionTime := 0 } := by
  norm_num [wS2, wS1, Medley.play, isDeckPlaying, loadNextTrack, getAnotherDeck,
    getAvailableDeck, fetchLoop, loadTrack, initState, initDeck, wTrack,
    EngineState.updateDeck, EngineState.deck]

theorem wS4_eval : wS4 =
    { deck1 := wD1, deck2 := initDeck, deckQueue := [.deck1],
      transitionState := .Idle, transitingDeck := none, forceFadingOut := 0,
      keepPlaying := true, queue := [wTrack], fadingCurve := 0, fadingFactor := 0,
      maxLeadingDuration := 10, maxTransitionTime := 0 } := by
  norm_num [wS4, wS3, wS2_eval, deckLoaded, markFrontMain, markAsMain, completeLoad,
    initDeck, wInfo1, wD1, EngineState.updateDeck, EngineState.deck]

theorem wS5_eval : wS5 =
    { deck1 := wD1, deck2 := { initDeck with isTrackLoading := true },
      deckQueue := [.deck1],
      transitionState := .Cued, transitingDeck := some .deck1, forceFadingOut := 0,
      keepPlaying := true, queue := [], fadingCurve := 0, fadingFactor := 0,
      maxLeadingDuration := 10, maxTransitionTime := 0 } := by
  norm_num [wS5, wS4_eval, deckPosition, cuePhase, transitPhase, fadeOutPhase,
    loadNextTrack, getAnotherDeck, getAvailableDeck, fetchLoop, loadTrack,
    TransitionState.toNat, DeckId.other, initDeck, wD1, wTrack,
    EngineState.updateDeck, EngineState.deck]

theorem wS6_eval : wS6 =
    { deck1 := wD1, deck2 := wD2, deckQueue := [.deck1, .deck2],
      transitionState := .Cued, transitingDeck := some .deck1, forceFadingOut := 0,
      keepPlaying := true, queue := [], fadingCurve := 0, fadingFactor := 0,
      maxLeadingDuration := 10, maxTransitionTime := 0 } := by
  norm_num [wS6, wS5_eval, deckLoaded, markFrontMain, markAsMain, completeLoad,
    initDeck, wInfo2, wD1, wD2, EngineState.updateDeck, EngineState.deck]

theorem wS8_eval : wS8 =
    { deck1 := { wD1 with volume := .num (9/10) },
      deck2 := { wD2 with playing := true }, deckQueue := [.deck1, .deck2],
      transitionState := .Transit, transitingDeck := some .deck1, forceFadingOut := 0,
      keepPlaying := true, queue := [], fadingCurve := 0, fadingFactor := 0,
      maxLeadingDuration := 10, maxTransitionTime := 0 } := by
  norm_num [wS8, wS6_eval, deckPosition, cuePhase, transitPhase, fadeOutPhase,
    TransitionState.toNat, DeckId.other, wD1, wD2, wRpow,
    FVal.jlimitF, FVal.oneMinus, FVal.powF, fdiv, jlimit,
    EngineState.updateDeck, EngineState.deck]

theorem wS6_reachable : Reachable wRpow wS6 :=
  Reachable.step
    (Reachable.step
      (Reachable.step
        (Reachable.step
          (Reachable.step
            (Reachable.step
              (Reachable.init 0 0 10 0)
              (EStep.stepEnqueue _ wTrack))
            (EStep.stepPlay _))
          (EStep.stepLoaded _ .deck1 wInfo1 (by decide)))
        (EStep.stepEnqueue _ wTrack))
      (EStep.stepPosition _ .deck1 25 (by decide)))
    (EStep.stepLoaded _ .deck2 wInfo2
      (by show (wS5.deck .deck2).isTrackLoading = true
          rw [wS5_eval]
          rfl))

theorem wS8_reachable : Reachable wRpow wS8 :=
  Reachable.step wS6_reachable
    (EStep.stepPosition _ .deck1 31
      (by show (wS6.deck .deck1).playing = true
          rw [wS6_eval]
          rfl))

/-- Claim C8: Medley::setFadingCurve stores the curve clamped to
[0, 100] and the derived fading factor equals
1000 / (((100 − fading_curve)/100) · 999 + 1). -/
theorem C8_fading_curve (s : EngineState) (c : ℚ) :
    (setFadingCurve s c).fadingCurve = jlimit 0 100 c ∧
    (setFadingCurve s c).fadingFactor =
      1000 / ((100 - (setFadingCurve s c).fadingCurve) / 100 * 999 + 1) := by
  refine ⟨rfl, ?_⟩
  show updateFadingFactor (jlimit 0 100 c) =
    1000 / ((100 - jlimit 0 100 c) / 100 * 999 + 1)
  unfold updateFadingFactor
  norm_num

/-- Claim C9: with both decks holding a loaded track,
Medley::loadNextTrack with no current deck finds no target deck and
returns false with the engine (and in particular the queue) unchanged,
and Medley::play leaves the queue unchanged. -/
theorem C9_both_loaded_no_fetch (s : EngineState) (p : Bool)
    (h1 : s.deck1.trackLoaded = true) (h2 : s.deck2.trackLoaded = true) :
    loadNextTrack s none p = (false, s) ∧ (Medley.play s).queue = s.queue := by
  have hga : getAnotherDeck s none = none := by
    unfold getAnotherDeck getAvailableDeck
    simp [h1, h2]
  refine ⟨loadNextTrack_none p hga, ?_⟩
  unfold Medley.play
  dsimp only
  split_ifs with hp
  · simp [loadNextTrack_none true hga]
  · rfl

theorem C9_both_loaded_no_fetch_witness :
    loadNextTrack
      { initState 0 0 0 0 with
          deck1 := { initDeck with trackLoaded := true }
          deck2 := { initDeck with trackLoaded := true } } none true =
      (false, { initState 0 0 0 0 with
          deck1 := { initDeck with trackLoaded := true }
          deck2 := { initDeck with trackLoaded := true } }) ∧
    (Medley.play { initState 0 0 0 0 with
        deck1 := { initDeck with trackLoaded := true }
        deck2 := { initDeck with trackLoaded := true } }).queue =
      ({ initState 0 0 0 0 with
          deck1 := { initDeck with trackLoaded := true }
          deck2 := { initDeck with trackLoaded := true } } : EngineState).queue :=
  C9_both_loaded_no_fetch _ true (by decide) (by decide)

/-- Claim C10: Medley::Mixer::togglePause flips the paused flag and
returns the new value, so two consecutive calls restore the mixer and
return complementary booleans. -/
theorem C10_toggle_pause (m : Mixer) :
    m.togglePause.1 = !m.paused ∧
    m.togglePause.1 = m.togglePause.2.paused ∧
    m.togglePause.2.togglePause.2 = m ∧
    m.togglePause.2.togglePause.1 = !m.togglePause.1 := by
  cases m with
  | mk p st => simp [Mixer.togglePause]

/-- Claim C1: in every reachable engine state the head of deckQueue is
the only deck whose main flag is set, and exactly one deck is main iff
some deck holds a loaded track. -/
theorem C1_main_is_queue_head (rpow : ℚ → ℚ → ℚ) (s : EngineState)
    (h : Reachable rpow s) :
    (∀ d, (s.deck d).main = true ↔ s.deckQueue.head? = some d) ∧
    ((∃! d, (s.deck d).main = true) ↔ ∃ d, (s.deck d).trackLoaded = true) := by
  have hI := reachable_inv h
  refine ⟨hI.main_iff, ?_, ?_⟩
  · rintro ⟨d, hd, _⟩
    exact ⟨d, (hI.loaded_iff d).mpr (head?_mem ((hI.main_iff d).mp hd))⟩
  · rintro ⟨d, hd⟩
    have hmem : d ∈ s.deckQueue := (hI.loaded_iff d).mp hd
    cases hq : s.deckQueue with
    | nil => rw [hq] at hmem; simp at hmem
    | cons f t =>
      have hh : s.deckQueue.head? = some f := by rw [hq]; rfl
      refine ⟨f, (hI.main_iff f).mpr hh, ?_⟩
      intro e he
      have h2 := (hI.main_iff e).mp he
      rw [hh] at h2
      exact (Option.some.inj h2).symm

theorem C1_main_is_queue_head_witness :
    (∀ d, ((initState 0 0 0 0).deck d).main = true ↔
      (initState 0 0 0 0).deckQueue.head? = some d) ∧
    ((∃! d, ((initState 0 0 0 0).deck d).main = true) ↔
      ∃ d, ((initState 0 0 0 0).deck d).trackLoaded = true) :=
  C1_main_is_queue_head wRpow _ (Reachable.init 0 0 0 0)

/-- Claim C4: during an active transit a short-leading incoming deck
stays at unit volume (an invariant of all reachable states), and with
a long leading the transit block sets the incoming deck's volume to
clamp((pos − (start − leading))/leading, 0.25, 1)^fadingFactor. -/
theorem C4_transit_volume (rpow : ℚ → ℚ → ℚ) :
    (∀ s : EngineState, Reachable rpow s → ∀ td : DeckId,
      s.transitionState = .Transit → s.transitingDeck = some td →
      (s.deck td).playing = true → (s.deck td.other).trackLoaded = true →
      (s.deck td.other).leadingDuration < s.maxLeadingDuration →
      (s.deck td.other).volume = FVal.num 1) ∧
    (∀ (s : EngineState) (sender : DeckId)
        (position transitionStartPos leadingDuration : ℚ),
      s.transitionState = .Transit →
      position > transitionStartPos - leadingDuration →
      leadingDuration ≥ s.maxLeadingDuration →
      ((transitPhase rpow s sender position transitionStartPos leadingDuration).deck
          sender.other).volume =
        (FVal.jlimitF (1/4) 1 (fdiv (position - (transitionStartPos - leadingDuration))
          leadingDuration)).powF rpow s.fadingFactor) := by
  constructor
  · intro s hr td hts htd hp hl hld
    exact (reachable_inv hr).short_leading_unit_volume td hts htd hp hl hld
  · intro s sender position startP lead hts hpos hlead
    unfold transitPhase
    rw [if_pos hpos]
    dsimp only
    rw [if_neg (show ¬(s.transitionState = TransitionState.Cued ∧
        (s.deck sender.other).trackLoaded = true) by rw [hts]; simp)]
    rw [if_pos (show s.transitionState = TransitionState.Transit ∧
        lead ≥ s.maxLeadingDuration from ⟨hts, hlead⟩)]
    simp

theorem C4_transit_volume_witness :
    (wS8.deck DeckId.deck1.other).volume = FVal.num 1 ∧
    ((transitPhase wRpow
        { initState 0 0 0 0 with transitionState := TransitionState.Transit }
        .deck1 2 1 1).deck DeckId.deck1.other).volume =
      (FVal.jlimitF (1/4) 1 (fdiv (2 - (1 - 1)) 1)).powF wRpow
        ({ initState 0 0 0 0 with transitionState := TransitionState.Transit } :
          EngineState).fadingFactor :=
  ⟨(C4_transit_volume wRpow).1 wS8 wS8_reachable .deck1
      (by rw [wS8_eval]) (by rw [wS8_eval])
      (by rw [wS8_eval]; rfl) (by rw [wS8_eval]; rfl)
      (by rw [wS8_eval]; decide),
   (C4_transit_volume wRpow).2 _ .deck1 2 1 1 rfl (by norm_num)
      (by norm_num [initState])⟩

/-- Claim C5: on the Cued-to-Transit entry with a pending forced
fade-out and a long-leading incoming track, the incoming deck is
seeked to firstAudible + leading − maxLeadingDuration and started. -/
theorem C5_forced_fade_seek (rpow : ℚ → ℚ → ℚ) (s : EngineState) (sender : DeckId)
    (position transitionStartPos leadingDuration : ℚ)
    (hpos : position > transitionStartPos - leadingDuration)
    (hcued : s.transitionState = .Cued)
    (hloaded : (s.deck sender.other).trackLoaded = true)
    (hff : 0 < s.forceFadingOut)
    (hlead : leadingDuration ≥ s.maxLeadingDuration) :
    ((transitPhase rpow s sender position transitionStartPos leadingDuration).deck
        sender.other).position =
      (s.deck sender.other).firstAudiblePosition + leadingDuration -
        s.maxLeadingDuration ∧
    ((transitPhase rpow s sender position transitionStartPos leadingDuration).deck
        sender.other).playing = true := by
  unfold transitPhase
  rw [if_pos hpos]
  dsimp only
  rw [if_pos (show s.transitionState = TransitionState.Cued ∧
      (s.deck sender.other).trackLoaded = true from ⟨hcued, hloaded⟩)]
  split_ifs with h1 h2 h3
  · constructor <;> simp
  · constructor <;> simp
  · exact absurd ⟨by simpa using hff, by simpa using hlead⟩ h1
  · exact absurd ⟨by simpa using hff, by simpa using hlead⟩ h1

/-- The concrete Cued state with a pending forced fade used to
exercise the forced-fade seek. -/
def wC5S : EngineState :=
  { initState 0 0 0 0 with
      transitionState := .Cued
      forceFadingOut := 1
      deck2 := { initDeck with trackLoaded := true } }

theorem C5_forced_fade_seek_witness :
    ((transitPhase wRpow wC5S .deck1 1 0 0).deck DeckId.deck1.other).position =
      (wC5S.deck DeckId.deck1.other).firstAudiblePosition + 0 -
        wC5S.maxLeadingDuration ∧
    ((transitPhase wRpow wC5S .deck1 1 0 0).deck DeckId.deck1.other).playing = true :=
  C5_forced_fade_seek wRpow wC5S .deck1 1 0 0 (by norm_num) rfl rfl (by decide)
    (by norm_num [wC5S, initState])

/-- Claim C3: past transitionStart with a nonpositive transition
duration the fade-out ramp on the sender is skipped (its volume is
untouched) while the stop once the position passes transitionEnd with
the progress complete still occurs; with a zero duration the clamped
progress is complete as soon as the position passes transitionEnd, and
with maxTransitionTime = 0 the spec anchor formula puts
transitionStart at transitionEnd = endFrame/sampleRate, an effective
cut at end_frame. -/
theorem C3_zero_duration (rpow : ℚ → ℚ → ℚ) (s : EngineState) (sender : DeckId)
    (position transitionStartPos transitionEndPos : ℚ)
    (hpos : position ≥ transitionStartPos)
    (hdur : transitionEndPos - transitionStartPos ≤ 0) :
    (((fadeOutPhase rpow s sender position transitionStartPos transitionEndPos).deck
        sender).volume = (s.deck sender).volume) ∧
    (s.transitionState ≠ .Idle → position > transitionEndPos →
      (FVal.jlimitF 0 1 (fdiv (position - transitionStartPos)
        (transitionEndPos - transitionStartPos))).ge1 = true →
      ((fadeOutPhase rpow s sender position transitionStartPos transitionEndPos).deck
        sender).playing = false) ∧
    (transitionEndPos = transitionStartPos → position > transitionEndPos →
      (FVal.jlimitF 0 1 (fdiv (position - transitionStartPos)
        (transitionEndPos - transitionStartPos))).ge1 = true) ∧
    (∀ endFrame lastAudibleFrame sampleRate : ℚ, 0 < sampleRate →
      transitionStartSec 0 endFrame lastAudibleFrame sampleRate =
        endFrame / sampleRate) := by
  refine ⟨?_, ?_, ?_, ?_⟩
  · unfold fadeOutPhase
    rw [if_pos hpos]
    dsimp only
    rw [if_neg (not_lt.mpr hdur)]
    split_ifs with h1 <;> simp
  · intro hts hpe hge
    unfold fadeOutPhase
    rw [if_pos hpos]
    dsimp only
    rw [if_neg (not_lt.mpr hdur)]
    rw [if_pos (show s.transitionState ≠ TransitionState.Idle ∧
        position > transitionEndPos ∧
        (FVal.jlimitF 0 1 (fdiv (position - transitionStartPos)
          (transitionEndPos - transitionStartPos))).ge1 = true from ⟨hts, hpe, hge⟩)]
    simp
  · intro heq hpe
    have hb : transitionEndPos - transitionStartPos = 0 := by rw [heq]; ring
    have ha : 0 < position - transitionStartPos := sub_pos.mpr (heq ▸ hpe)
    rw [hb]
    unfold fdiv
    rw [if_pos rfl, if_pos ha]
    norm_num [FVal.jlimitF, FVal.ge1, jlimit]
  · intro endFrame lastAudibleFrame sampleRate hrate
    unfold transitionStartSec
    rw [min_eq_left (div_nonneg (le_max_left 0 _) hrate.le)]
    ring

/-- The concrete non-Idle state used to exercise the zero-duration
fade-out. -/
def wC3S : EngineState :=
  { initState 0 0 0 0 with transitionState := .Cued }

theorem C3_zero_duration_witness :
    (((fadeOutPhase wRpow wC3S .deck1 1 0 0).deck DeckId.deck1).volume =
      (wC3S.deck DeckId.deck1).volume) ∧
    (wC3S.transitionState ≠ .Idle → (1:ℚ) > 0 →
      (FVal.jlimitF 0 1 (fdiv ((1:ℚ) - 0) ((0:ℚ) - 0))).ge1 = true →
      ((fadeOutPhase wRpow wC3S .deck1 1 0 0).deck DeckId.deck1).playing = false) ∧
    ((0:ℚ) = 0 → (1:ℚ) > 0 →
      (FVal.jlimitF 0 1 (fdiv ((1:ℚ) - 0) ((0:ℚ) - 0))).ge1 = true) ∧
    (∀ endFrame lastAudibleFrame sampleRate : ℚ, 0 < sampleRate →
      transitionStartSec 0 endFrame lastAudibleFrame sampleRate =
        endFrame / sampleRate) :=
  C3_zero_duration wRpow wC3S .deck1 1 0 0 (by norm_num) (by norm_num)

/-- Claim C6: an unloaded event from the deck recorded as transiting
returns the transition state to Idle and clears transitingDeck, and if
the state was still Cued with the other deck loaded, the other deck is
started. -/
theorem C6_unload_transiting (s : EngineState) (d : DeckId)
    (htd : s.transitingDeck = some d) :
    (deckUnloaded (s.updateDeck d unloadDeck) d).transitionState = .Idle ∧
    (deckUnloaded (s.updateDeck d unloadDeck) d).transitingDeck = none ∧
    (s.transitionState = .Cued → (s.deck d.other).trackLoaded = true →
      ((deckUnloaded (s.updateDeck d unloadDeck) d).deck d.other).playing = true) := by
  have htd2 : (s.updateDeck d unloadDeck).transitingDeck = some d := by simpa using htd
  obtain ⟨h1, h2⟩ := deckUnloaded_idle htd2
  refine ⟨h1, h2, ?_⟩
  intro hcued hl
  have hT : ((deckUnloadedTransit (s.updateDeck d unloadDeck) d).deck d.other).playing =
      true := by
    unfold deckUnloadedTransit
    rw [if_pos htd2]
    dsimp only
    rw [if_pos (show (s.updateDeck d unloadDeck).transitionState = TransitionState.Cued ∧
        ((s.updateDeck d unloadDeck).deck d.other).trackLoaded = true from
        ⟨by simpa using hcued,
         by rw [deck_updateDeck_ne s _ (DeckId.other_ne d)]; exact hl⟩)]
    cases d <;> simp [EngineState.updateDeck, EngineState.deck, DeckId.other]
  have hQ : ((deckUnloadedQueue
      (deckUnloadedTransit (s.updateDeck d unloadDeck) d) d).deck d.other).playing =
      true := by
    rw [deckUnloadedQueue_playing]
    exact hT
  unfold deckUnloaded deckUnloadedCore
  rw [recoverPlayback_of_playing (isDeckPlaying_of_deck hQ)]
  exact hQ

/-- The concrete Cued state with deck1 transiting and deck2 loaded
used to exercise the transiting-deck unload. -/
def wC6S : EngineState :=
  { initState 0 0 0 0 with
      transitionState := .Cued
      transitingDeck := some .deck1
      deck2 := { initDeck with trackLoaded := true } }

theorem C6_unload_transiting_witness :
    (deckUnloaded (wC6S.updateDeck .deck1 unloadDeck) .deck1).transitionState = .Idle ∧
    (deckUnloaded (wC6S.updateDeck .deck1 unloadDeck) .deck1).transitingDeck = none ∧
    (wC6S.transitionState = .Cued → (wC6S.deck DeckId.deck1.other).trackLoaded = true →
      ((deckUnloaded (wC6S.updateDeck .deck1 unloadDeck) .deck1).deck
        DeckId.deck1.other).playing = true) :=
  C6_unload_transiting wC6S .deck1 rfl

/-- Claim C2: a position event of the main deck below Cued that passes
the cue point attempts loadNextTrack; when no track loads and the
forced fade-out counter is zero the handler returns early — the state
never passes Cueing and transitingDeck stays unset — and otherwise the
state becomes Cued with transitingDeck set to the sender. -/
theorem C2_cue_decision (s : EngineState) (sender : DeckId)
    (position cuePoint preCuePoint : ℚ)
    (hts : s.transitionState.toNat < TransitionState.Cued.toNat)
    (htd : s.transitingDeck = none)
    (hff : 0 ≤ s.forceFadingOut)
    (hcue : position > cuePoint) :
    if (loadNextTrack (if s.transitionState = .Idle ∧ position > preCuePoint
          then { s with transitionState := .Cueing } else s) (some sender) false).1 = false ∧
        (loadNextTrack (if s.transitionState = .Idle ∧ position > preCuePoint
          then { s with transitionState := .Cueing } else s) (some sender)
          false).2.forceFadingOut = 0 then
      cuePhase s sender position cuePoint preCuePoint =
        (true, (loadNextTrack (if s.transitionState = .Idle ∧ position > preCuePoint
          then { s with transitionState := .Cueing } else s) (some sender) false).2) ∧
      (cuePhase s sender position cuePoint preCuePoint).2.transitionState.toNat ≤
        TransitionState.Cueing.toNat ∧
      (cuePhase s sender position cuePoint preCuePoint).2.transitingDeck = none
    else
      (cuePhase s sender position cuePoint preCuePoint).1 = false ∧
      (cuePhase s sender position cuePoint preCuePoint).2.transitionState = .Cued ∧
      (cuePhase s sender position cuePoint preCuePoint).2.transitingDeck = some sender := by
  have hfr : ∀ u : EngineState,
      (loadNextTrack u (some sender) false).2.forceFadingOut = u.forceFadingOut :=
    fun u => (loadNextTrack_engine_frame u (some sender) false).2.2.2.1
  have hfts : ∀ u : EngineState,
      (loadNextTrack u (some sender) false).2.transitionState = u.transitionState :=
    fun u => (loadNextTrack_engine_frame u (some sender) false).2.1
  have hftd : ∀ u : EngineState,
      (loadNextTrack u (some sender) false).2.transitingDeck = u.transitingDeck :=
    fun u => (loadNextTrack_engine_frame u (some sender) false).2.2.1
  have hcp : cuePhase s sender position cuePoint preCuePoint =
      (let s1 := if s.transitionState = .Idle ∧ position > preCuePoint
        then { s with transitionState := .Cueing } else s
       let r := loadNextTrack s1 (some sender) false
       if !r.1 && decide (r.2.forceFadingOut ≤ 0) then (true, r.2)
       else (false, { r.2 with transitionState := .Cued
                               transitingDeck := some sender })) := by
    unfold cuePhase
    rw [if_pos hts]
    dsimp only
    rw [if_pos hcue]
  dsimp only at hcp
  by_cases hc : (loadNextTrack (if s.transitionState = .Idle ∧ position > preCuePoint
      then { s with transitionState := .Cueing } else s) (some sender) false).1 = false ∧
      (loadNextTrack (if s.transitionState = .Idle ∧ position > preCuePoint
      then { s with transitionState := .Cueing } else s) (some sender)
      false).2.forceFadingOut = 0
  · rw [if_pos hc]
    have hb : (!(loadNextTrack (if s.transitionState = .Idle ∧ position > preCuePoint
        then { s with transitionState := .Cueing } else s) (some sender) false).1 &&
        decide ((loadNextTrack (if s.transitionState = .Idle ∧ position > preCuePoint
        then { s with transitionState := .Cueing } else s) (some sender)
        false).2.forceFadingOut ≤ 0)) = true := by
      rw [hc.1, hc.2]
      simp
    rw [hb] at hcp
    rw [if_pos rfl] at hcp
    refine ⟨hcp, ?_, ?_⟩
    · rw [hcp]
      dsimp only
      rw [hfts]
      split_ifs with h1
      · simp [TransitionState.toNat]
      · simp only [TransitionState.toNat] at hts ⊢
        omega
    · rw [hcp]
      dsimp only
      rw [hftd]
      split_ifs with h1 <;> simpa using htd
  · rw [if_neg hc]
    have hb : (!(loadNextTrack (if s.transitionState = .Idle ∧ position > preCuePoint
        then { s with transitionState := .Cueing } else s) (some sender) false).1 &&
        decide ((loadNextTrack (if s.transitionState = .Idle ∧ position > preCuePoint
        then { s with transitionState := .Cueing } else s) (some sender)
        false).2.forceFadingOut ≤ 0)) = false := by
      by_cases h1 : (loadNextTrack (if s.transitionState = .Idle ∧ position > preCuePoint
          then { s with transitionState := .Cueing } else s) (some sender) false).1
      · simp [h1]
      · have h2 : (loadNextTrack (if s.transitionState = .Idle ∧ position > preCuePoint
            then { s with transitionState := .Cueing } else s) (some sender)
            false).2.forceFadingOut ≠ 0 := by
          intro hx
          exact hc ⟨by simpa using h1, hx⟩
        have h3 : ¬((loadNextTrack (if s.transitionState = .Idle ∧ position > preCuePoint
            then { s with transitionState := .Cueing } else s) (some sender)
            false).2.forceFadingOut ≤ 0) := by
          rw [hfr] at h2 ⊢
          have h4 : (if s.transitionState = .Idle ∧ position > preCuePoint
              then { s with transitionState := .Cueing } else s).forceFadingOut =
              s.forceFadingOut := by
            split_ifs <;> rfl
          rw [h4] at h2 ⊢
          omega
        simp [h1, h3]
    rw [hb] at hcp
    rw [if_neg (by simp)] at hcp
    rw [hcp]
    exact ⟨rfl, rfl, rfl⟩

theorem C2_cue_decision_witness :
    if (loadNextTrack (if (initState 0 0 0 0).transitionState = .Idle ∧ (1:ℚ) > 0
          then { initState 0 0 0 0 with transitionState := .Cueing }
          else initState 0 0 0 0) (some DeckId.deck1) false).1 = false ∧
        (loadNextTrack (if (initState 0 0 0 0).transitionState = .Idle ∧ (1:ℚ) > 0
          then { initState 0 0 0 0 with transitionState := .Cueing }
          else initState 0 0 0 0) (some DeckId.deck1) false).2.forceFadingOut = 0 then
      cuePhase (initState 0 0 0 0) .deck1 1 0 0 =
        (true, (loadNextTrack (if (initState 0 0 0 0).transitionState = .Idle ∧ (1:ℚ) > 0
          then { initState 0 0 0 0 with transitionState := .Cueing }
          else initState 0 0 0 0) (some DeckId.deck1) false).2) ∧
      (cuePhase (initState 0 0 0 0) .deck1 1 0 0).2.transitionState.toNat ≤
        TransitionState.Cueing.toNat ∧
      (cuePhase (initState 0 0 0 0) .deck1 1 0 0).2.transitingDeck = none
    else
      (cuePhase (initState 0 0 0 0) .deck1 1 0 0).1 = false ∧
      (cuePhase (initState 0 0 0 0) .deck1 1 0 0).2.transitionState = .Cued ∧
      (cuePhase (initState 0 0 0 0) .deck1 1 0 0).2.transitingDeck = some DeckId.deck1 :=
  C2_cue_decision (initState 0 0 0 0) .deck1 1 0 0 (by decide) rfl (by decide)
    (by norm_num)

/-- Claim C7: preCueNext is dispatched only on the Idle-to-Cueing edge
of a main-deck position event — after such a step the state is no
longer Idle — and a non-Idle state can only return to Idle through an
unloaded event of the recorded transiting deck or through
fadeOutMainDeck, so the emission happens at most once per transition
cycle. -/
theorem C7_precue_once (rpow : ℚ → ℚ → ℚ) {s s' : EngineState} {l : Label}
    (hstep : EStep rpow s l s') :
    (emitsPreCue s l = true →
      s.transitionState = .Idle ∧ s'.transitionState ≠ .Idle) ∧
    (s.transitionState ≠ .Idle → s'.transitionState = .Idle →
      (∃ d, l = .unloaded d ∧ s.transitingDeck = some d) ∨ l = .fadeOut) := by
  cases hstep with
  | stepEnqueue t =>
    constructor
    · intro he; simp [emitsPreCue] at he
    · intro h1 h2
      exact absurd h2 h1
  | stepLoaded d info hld =>
    constructor
    · intro he; simp [emitsPreCue] at he
    · intro h1 h2
      rw [deckLoaded_ts] at h2
      simp only [updateDeck_transitionState] at h2
      exact absurd h2 h1
  | stepUnloaded d hld =>
    constructor
    · intro he; simp [emitsPreCue] at he
    · intro h1 h2
      by_cases htd : s.transitingDeck = some d
      · exact Or.inl ⟨d, rfl, htd⟩
      · exfalso
        have htd2 : (s.updateDeck d unloadDeck).transitingDeck ≠ some d := by
          simpa using htd
        rw [deckUnloaded_ts_of_not_transiting htd2] at h2
        simp only [updateDeck_transitionState] at h2
        exact absurd h2 h1
  | stepPosition d pos hp =>
    constructor
    · intro he
      simp only [emitsPreCue, Bool.and_eq_true, decide_eq_true_eq] at he
      obtain ⟨⟨hmainB, hidle⟩, hpre⟩ := he
      refine ⟨hidle, ?_⟩
      unfold deckPosition
      rw [if_pos hmainB]
      dsimp only
      have h1 := cuePhase_precue_ts hidle d (s.deck d).transitionCuePosition hpre
      by_cases hr : (cuePhase s d pos (s.deck d).transitionCuePosition
          (s.deck d).transitionPreCuePosition).1 = true
      · rw [if_pos hr]
        exact h1
      · rw [if_neg hr]
        rw [fadeOutPhase_ts]
        exact transitPhase_ts_ne_idle h1 rpow d pos
          (s.deck d).transitionStartPosition (s.deck d.other).leadingDuration
    · intro h1 h2
      exact absurd h2 (deckPosition_ts_ne_idle h1 rpow d pos)
  | stepFinished d hp =>
    constructor
    · intro he; simp [emitsPreCue] at he
    · intro h1 h2
      simp only [updateDeck_transitionState] at h2
      exact absurd h2 h1
  | stepPlay =>
    constructor
    · intro he; simp [emitsPreCue] at he
    · intro h1 h2
      rw [play_ts] at h2
      exact absurd h2 h1
  | stepStop =>
    constructor
    · intro he; simp [emitsPreCue] at he
    · intro h1 h2
      exact absurd h2 h1
  | stepFadeOut =>
    constructor
    · intro he; simp [emitsPreCue] at he
    · intro h1 h2
      exact Or.inr rfl

/-- The concrete Idle state with a playing main deck used to exercise
a pre-cue emitting position step. -/
def wC7S : EngineState :=
  { initState 0 0 0 0 with deck1 := { initDeck with playing := true, main := true } }

theorem C7_precue_once_witness :
    (emitsPreCue wC7S (.position .deck1 5) = true →
      wC7S.transitionState = .Idle ∧
      (deckPosition wRpow wC7S .deck1 5).transitionState ≠ .Idle) ∧
    (wC7S.transitionState ≠ .Idle →
      (deckPosition wRpow wC7S .deck1 5).transitionState = .Idle →
      (∃ d, (Label.position .deck1 5) = .unloaded d ∧ wC7S.transitingDeck = some d) ∨
      (Label.position .deck1 5) = .fadeOut) :=
  C7_precue_once wRpow (EStep.stepPosition wC7S .deck1 5 (by decide))

end Medley
